import Mathlib

/-!
Verification development for the CNTK new-reader core: the block randomizer
(`BlockRandomizer.cpp`), the image transformer pipeline and frame-mode packer
(`ImageTransformers.cpp`), and the reader shim (`ReaderShim.cpp`).

The C++ source is shallowly embedded: machine integers become `Nat` (with an
explicit `% 2 ^ 64` where `size_t` wraparound matters), fallible or possibly
non-terminating code returns `Option` (with explicit fuel for retry loops),
and the C runtime PRNG (`srand` / `rand`) is modelled by an arbitrary function
`Nat → Nat → Nat` mapping a seed and a call index to the call's result.
-/

namespace CNTK

/-- Largest value of a 64-bit `size_t`; the source's `SIZE_MAX`. -/
def SIZEMAX : Nat := 2 ^ 64 - 1

/-- Windows CRT `RAND_MAX` (the source targets MSVC; `rand()` yields `[0, 32767]`). -/
def RANDMAXC : Nat := 32767

/-! ## CropTransformer (`ImageTransformers.cpp`, `GetCropRect`)

The OpenCV matrix geometry is embedded directly: `crow`/`ccol` are the positive
pixel dimensions, and the `double cropRatio` is modelled as an exact rational.
`std::uniform_int_distribution<int>(a, b)` produces a value in `[a, b]`; each
call is modelled by an arbitrary draw `d : Nat` reduced into the range as
`a + d % (b - a + 1)`, so that every value of the range is realised by some
draw. -/

/-- Crop variants parsed by `CropTransformer::ParseCropType`. -/
inductive CropType
  | center
  | random
  deriving DecidableEq

/-- Value of `UniIntT(a, b)(rng)` for a draw `d`: an integer in `[a, b]`. -/
def UniIntT (a b d : Nat) : Nat := a + d % (b - a + 1)

/-- Result of `cv::Rect(xOff, yOff, cropSize, cropSize)`. -/
structure CropRect where
  x : Nat
  y : Nat
  width : Nat
  height : Nat
  deriving DecidableEq

/-- Embedding of `CropTransformer::GetCropRect`.  `cropSize` is the truncation
of `min(crow, ccol) * ratio` (the `static_cast<int>`); the two draws `d1 d2`
feed the two `UniIntT` calls of the `random` branch. -/
def GetCropRect (type : CropType) (crow ccol : Nat) (ratio : ℚ) (d1 d2 : Nat) : CropRect :=
  let cropSize : Nat := (⌊(min crow ccol : ℚ) * ratio⌋).toNat
  match type with
  | CropType.center => ⟨(ccol - cropSize) / 2, (crow - cropSize) / 2, cropSize, cropSize⟩
  | CropType.random => ⟨UniIntT 0 (ccol - cropSize) d1, UniIntT 0 (crow - cropSize) d2,
      cropSize, cropSize⟩

/-! ## MeanTransformer (`ImageTransformers.cpp`, `MeanTransformer::Apply`)

A `cv::Mat` is embedded as its row/column/channel counts plus the flat element
buffer.  `m_meanImg.size() == mat.size()` compares rows and columns only; the
channel counts are compared only inside the `assert`.  Subtracting matrices of
unequal channel count raises a `cv::Exception`, modelled as `none`. -/

/-- Shallow `cv::Mat`: dimensions plus the flat data buffer. -/
structure MatM where
  rows : Nat
  cols : Nat
  channels : Nat
  data : List Int
  deriving DecidableEq

/-- Elementwise matrix difference (`mat - m_meanImg` when the shapes agree). -/
def matSub (a b : MatM) : MatM :=
  { a with data := a.data.zipWith (fun x y => x - y) b.data }

/-- Released (empty) `cv::Mat`, the state of `m_meanImg` for an empty
`meanFile` (`m_meanImg.release()` in `InitFromConfig`): size `0 × 0`. -/
def emptyMeanImg : MatM := ⟨0, 0, 1, []⟩

/-- Embedding of `MeanTransformer::Apply`.  The subtraction is attempted iff
`m_meanImg.size() == mat.size()` (rows and columns only); when it is attempted
with mismatched channel counts the OpenCV subtraction fails (`none`). -/
def meanApply (meanImg mat : MatM) : Option MatM :=
  if meanImg.rows = mat.rows ∧ meanImg.cols = mat.cols then
    if meanImg.channels = mat.channels then some (matSub mat meanImg) else none
  else
    some mat

/-! ## ScaleTransformer configuration (`ImageTransformers.cpp`,
`ScaleTransformer::InitFromConfig`) and `CropTransformer::ParseCropType` -/

/-- OpenCV interpolation modes recognised by `m_interpMap`. -/
inductive InterpKind
  | nearest
  | linear
  | cubic
  | lanczos4
  deriving DecidableEq

/-- ASCII `std::tolower` on one character. -/
def tolowerChar (c : Char) : Char :=
  if 'A' ≤ c ∧ c ≤ 'Z' then Char.ofNat (c.toNat + 32) else c

/-- Lower-casing of a string (`std::transform` with `std::tolower`, and the
case-folding inside `AreEqualIgnoreCase`). -/
def strToLower (s : String) : String := String.mk (s.data.map tolowerChar)

/-- Split of a character list at every `':'` (the pieces between delimiters,
like repeated `std::getline` including a final piece after the last colon). -/
def splitOnColon : List Char → List (List Char)
  | [] => [[]]
  | c :: rest =>
    if c = ':' then [] :: splitOnColon rest
    else
      match splitOnColon rest with
      | [] => [[c]]
      | t :: ts => (c :: t) :: ts

/-- Token list produced by `std::getline(ss, token, ':')`: the colon-separated
pieces, except that a trailing delimiter does not produce a final empty token
and an empty string produces no token at all. -/
def getlineTokens (s : String) : List String :=
  if s.data = [] then []
  else
    let ps := splitOnColon s.data
    let ps := if ps.getLast? = some [] then ps.dropLast else ps
    ps.map (fun cs => String.mk cs)

/-- Lookup in `m_interpMap` as populated by `ScaleTransformer::Initialize`. -/
def interpLookup (s : String) : Option InterpKind :=
  if s = "nearest" then some InterpKind.nearest
  else if s = "linear" then some InterpKind.linear
  else if s = "cubic" then some InterpKind.cubic
  else if s = "lanczos" then some InterpKind.lanczos4
  else none

/-- Embedding of the `interpolations` parsing loop of
`ScaleTransformer::InitFromConfig`: tokenize on `:`, lower-case, keep only the
tokens found in `m_interpMap`, and fall back to `linear` when nothing was
recognised. -/
def parseInterpolations (s : String) : List InterpKind :=
  let res := (getlineTokens s).map strToLower |>.filterMap interpLookup
  if res = [] then [InterpKind.linear] else res

/-- Embedding of `ScaleTransformer::InitFromConfig`: reads `width`, `height`
and `channels`, rejects a zero or too-large feature size (`cfeat == 0 || cfeat
> SIZE_MAX / 2`), and parses `interpolations`.  The `size_t` product wraps
modulo `2 ^ 64`. -/
def scaleInitFromConfig (width height channels : Nat) (interpolations : String) :
    Option (Nat × Nat × Nat × List InterpKind) :=
  let cfeat := width * height * channels % 2 ^ 64
  if cfeat = 0 ∨ SIZEMAX / 2 < cfeat then none
  else some (width, height, channels, parseInterpolations interpolations)

/-- Embedding of `CropTransformer::ParseCropType`: empty or `center`
(case-insensitively) parses to `Center`, `random` to `Random`, and anything
else is a fatal `RuntimeError` (`none`). -/
def ParseCropType (src : String) : Option CropType :=
  if src = "" ∨ strToLower src = "center" then some CropType.center
  else if strToLower src = "random" then some CropType.random
  else none

/-! ## HeapMemoryProvider (`ImageTransformers.cpp` translation unit,
`HeapMemoryProvider::Free`)

The provider's heap is embedded as an association list of machine words plus
the set of live base pointers.  `Free` on a non-null `p` reads the word stored
one pointer-width (8 bytes) before `p` and deallocates that base; both effects
are recorded as events so that their absence is expressible. -/

/-- Observable effects of `HeapMemoryProvider::Free`. -/
inductive MemEvent
  | read (addr : Nat)
  | dealloc (base : Nat)
  deriving DecidableEq

/-- Heap state seen by `HeapMemoryProvider`: stored words and live bases. -/
structure MemState where
  words : List (Nat × Nat)
  allocations : List Nat
  deriving DecidableEq

/-- Word stored at `addr`, as read by `reinterpret_cast<void**>(p)[-1]`. -/
def MemState.wordAt (st : MemState) (addr : Nat) : Nat :=
  ((st.words.find? (fun e => e.fst = addr)).map (·.snd)).getD 0

/-- Embedding of `HeapMemoryProvider::Free`: a null pointer returns at once;
otherwise the saved base pointer is read from `p - 8` and `operator delete` is
called on it. -/
def heapFree (p : Nat) (st : MemState) : MemState × List MemEvent :=
  if p = 0 then (st, [])
  else
    let base := st.wordAt (p - 8)
    ({ st with allocations := st.allocations.erase base },
      [MemEvent.read (p - 8), MemEvent.dealloc base])

/-! ## BlockRandomizer data model (`BlockRandomizer.h/.cpp`) -/

/-- Logical record of the corpus timeline (`SequenceDescription`): monotonic
id, owning chunk, and sample count. -/
structure SequenceDescription where
  id : Nat
  chunkId : Nat
  numberOfSamples : Nat
  deriving DecidableEq

instance : Inhabited SequenceDescription := ⟨⟨0, 0, 0⟩⟩

/-- Physical chunk bookkeeping (`ChunkInformation`): first sequence position
and first sample position of the chunk in the original timeline. -/
structure ChunkInformation where
  sequencePositionStart : Nat
  samplePositionStart : Nat
  deriving DecidableEq

instance : Inhabited ChunkInformation := ⟨⟨0, 0⟩⟩

/-- Check applied by `BlockRandomizer::IsValid` between a `previous` and a
`current` sequence description (the body of the `find_if_not` lambda); the
`size_t` increments wrap modulo `2 ^ 64`, which matters for the initial
`previous` whose id is `SIZE_MAX`. -/
def validStep (previous current : SequenceDescription) : Bool :=
  decide ((previous.id + 1) % 2 ^ 64 = current.id ∧
    previous.chunkId ≤ current.chunkId ∧
    current.chunkId ≤ (previous.chunkId + 1) % 2 ^ 64 ∧
    0 < current.numberOfSamples)

/-- Initial `previous` of `BlockRandomizer::IsValid`:
`{static_cast<size_t>(-1), 0, 0}`. -/
def initialPrevious : SequenceDescription := ⟨SIZEMAX, 0, 0⟩

/-- Embedding of `BlockRandomizer::IsValid`: the `find_if_not` scan succeeds
iff every element passes `validStep` against its predecessor (starting from
`initialPrevious`). -/
def IsValid (timeline : List SequenceDescription) : Bool :=
  (timeline.foldl (fun acc current => (current, acc.2 && validStep acc.1 current))
    (initialPrevious, true)).2

/-- ClaimTimelineValid states C5's validity conditions exactly as the claim
words them (for comparison with `IsValid`): sequence ids form `0,1,2,…`,
chunk ids are non-decreasing and grow by at most 1 between ADJACENT sequences,
and every sequence has at least one sample.  Note it imposes nothing on the
first sequence's chunk id. -/
def ClaimTimelineValid (tl : List SequenceDescription) : Bool :=
  ((List.range tl.length).all fun k => (tl.getD k default).id == k) &&
  (tl.all fun s => decide (0 < s.numberOfSamples)) &&
  ((List.range (tl.length - 1)).all fun k =>
    decide ((tl.getD k default).chunkId ≤ (tl.getD (k + 1) default).chunkId) &&
    decide ((tl.getD (k + 1) default).chunkId ≤ (tl.getD k default).chunkId + 1))

/-- CodeTimelineValid is the validity condition actually enforced by
`BlockRandomizer::IsValid`, in indexed form: the claim's conditions plus the
constraint that the first sequence's chunk id is at most 1 (it is compared
against the virtual initial previous, whose chunk id is 0). -/
def CodeTimelineValid (tl : List SequenceDescription) : Prop :=
  (∀ (k : Nat) (h : k < tl.length), tl[k].id = k ∧ 0 < tl[k].numberOfSamples) ∧
  (∀ (k : Nat) (h : k + 1 < tl.length),
    tl[k].chunkId ≤ tl[k + 1].chunkId ∧ tl[k + 1].chunkId ≤ tl[k].chunkId + 1) ∧
  (∀ (h : 0 < tl.length), tl[0].chunkId ≤ 1)

/-- State of the one fold in the `BlockRandomizer` constructor body: the
`m_chunkInformation` vector under construction, the running sample count
(`m_numSamples`), and `maxNumberOfSamples`. -/
def chunkInfoStep (acc : List ChunkInformation × Nat × Nat) (seq : SequenceDescription) :
    List ChunkInformation × Nat × Nat :=
  let info := acc.1
  let numSamples := acc.2.1
  let maxS := acc.2.2
  let old := info.getD seq.chunkId default
  (info.set seq.chunkId
      ⟨min old.sequencePositionStart seq.id, min old.samplePositionStart numSamples⟩,
    numSamples + seq.numberOfSamples, max maxS seq.numberOfSamples)

/-- Constructed `BlockRandomizer` (the fields set up by the constructor). -/
structure BR0 where
  timeline : List SequenceDescription
  chunkInformation : List ChunkInformation
  numSequences : Nat
  numChunks : Nat
  numSamples : Nat
  frameMode : Bool
  randomizationRangeInSamples : Nat
  deriving DecidableEq

/-- Embedding of the `BlockRandomizer` constructor: the timeline must pass
`IsValid` (the constructor's validity assertion; the spec makes an invalid
timeline fatal) and must be nonempty (`timeline.back()` is undefined on an
empty vector, modelled as `none`).  `m_chunkInformation` starts as
`numChunks + 1` copies of `{SIZE_MAX, SIZE_MAX}`, is folded over the timeline,
and gets the sentinel `{numSequences, numSamples}`; frame mode means the
largest sample count is exactly 1. -/
def mkBlockRandomizer (W : Nat) (timeline : List SequenceDescription) : Option BR0 :=
  if IsValid timeline = true then
    match timeline.getLast? with
    | none => none
    | some last =>
      let numSequences := last.id + 1
      let numChunks := last.chunkId + 1
      let start : List ChunkInformation := List.replicate (numChunks + 1) ⟨SIZEMAX, SIZEMAX⟩
      let res := timeline.foldl chunkInfoStep (start, 0, 0)
      let info := res.1.set numChunks ⟨numSequences, res.2.1⟩
      some ⟨timeline, info, numSequences, numChunks, res.2.1, res.2.2 == 1, W⟩
  else none

/-! ## BlockRandomizer randomization (`BlockRandomizer.cpp`)

The C runtime PRNG is abstracted by a function `f : Nat → Nat → Nat`; after
`srand(seed)`, the `k`-th `::rand()` call returns `f seed k % (RAND_MAX + 1)`.
The helper `rand(begin, end)` divides by `end - begin`, so an empty range is
undefined behaviour, modelled as `none`. -/

/-- State of the C runtime PRNG: current seed and number of calls made. -/
structure RngState where
  seed : Nat
  calls : Nat
  deriving DecidableEq

instance : Inhabited RngState := ⟨⟨0, 0⟩⟩

/-- Effect of `srand(s)`. -/
def srandR (s : Nat) : RngState := ⟨s, 0⟩

/-- One `::rand()` call. -/
def randNext (f : Nat → Nat → Nat) (r : RngState) : Nat × RngState :=
  (f r.seed r.calls % (RANDMAXC + 1), ⟨r.seed, r.calls + 1⟩)

/-- Embedding of the file-local `rand(begin, end)` helper: two `::rand()`
calls combined as `rand() * RAND_MAX + rand()`, reduced into `[begin, end)`;
`none` when the range is empty (modulo by zero). -/
def randRange (f : Nat → Nat → Nat) (b e : Nat) (r : RngState) :
    Option (Nat × RngState) :=
  let (x, r1) := randNext f r
  let (y, r2) := randNext f r1
  if e ≤ b then none else some (b + (x * RANDMAXC + y) % (e - b), r2)

/-- Swap of two list positions (`std::swap(v[i], v[irand])`). -/
def listSwap {α : Type} [Inhabited α] (l : List α) (i j : Nat) : List α :=
  (l.set i (l.getD j default)).set j (l.getD i default)

/-- Loop body iteration of `BlockRandomizer::randomShuffle`: `n` is the vector
size, the first argument counts the remaining iterations (position
`i = n - remaining`). -/
def randomShuffleAux (f : Nat → Nat → Nat) (n : Nat) :
    Nat → List Nat → RngState → Option (List Nat × RngState)
  | 0, v, r => some (v, r)
  | k + 1, v, r =>
    match randRange f 0 n r with
    | none => none
    | some (irand, r') =>
      let i := n - (k + 1)
      randomShuffleAux f n k (if irand = i then v else listSwap v i irand) r'

/-- Embedding of `BlockRandomizer::randomShuffle`: seeds the PRNG with
`randomseed`, then for every index picks a random location and swaps;
oversized vectors are a fatal `RuntimeError`. -/
def randomShuffle (f : Nat → Nat → Nat) (v : List Nat) (randomseed : Nat) :
    Option (List Nat × RngState) :=
  if RANDMAXC * RANDMAXC < v.length then none
  else randomShuffleAux f v.length v.length v (srandR randomseed)

/-- Chunk after the sweep shuffle (`RandomizedChunk`): its start positions on
the randomized timeline, its original chunk index, and its randomization
window (the second pass of `RandomizeChunks` fills the window fields; they
start as 0 here, standing for the uninitialized members). -/
structure RandomizedChunk where
  sequencePositionStart : Nat
  samplePositionStart : Nat
  originalChunkIndex : Nat
  windowbegin : Nat
  windowend : Nat
  deriving DecidableEq

instance : Inhabited RandomizedChunk := ⟨⟨0, 0, 0, 0, 0⟩⟩

/-- Placement loop of `RandomizeChunks`: lays the permuted chunks onto the
randomized timeline, accumulating sequence and sample positions, and appends
the sentinel chunk (original index `SIZE_MAX`). -/
def placeChunksGo (info : List ChunkInformation) :
    List Nat → Nat → Nat → List RandomizedChunk
  | [], seqPos, samplePos => [⟨seqPos, samplePos, SIZEMAX, 0, 0⟩]
  | orig :: rest, seqPos, samplePos =>
    let numSeq := (info.getD (orig + 1) default).sequencePositionStart -
      (info.getD orig default).sequencePositionStart
    let numSamp := (info.getD (orig + 1) default).samplePositionStart -
      (info.getD orig default).samplePositionStart
    ⟨seqPos, samplePos, orig, 0, 0⟩ ::
      placeChunksGo info rest (seqPos + numSeq) (samplePos + numSamp)

/-- Sample position at which randomized chunk `i` starts
(`m_randomizedChunks[i].info.samplePositionStart`). -/
def sampleStartAt (chunks : List RandomizedChunk) (i : Nat) : Nat :=
  (chunks.getD i default).samplePositionStart

/-- Sequence position at which randomized chunk `i` starts. -/
def seqStartAt (chunks : List RandomizedChunk) (i : Nat) : Nat :=
  (chunks.getD i default).sequencePositionStart

/-- Fueled `while` loop incrementing a counter while a predicate holds (the
two window-advancing loops of `RandomizeChunks`; the fuel is always large
enough, as the adequacy lemmas show). -/
def advanceWhile (p : Nat → Bool) : Nat → Nat → Nat
  | 0, x => x
  | fuel + 1, x => if p x then advanceWhile p fuel (x + 1) else x

/-- Window computation for one chunk `c` of `RandomizeChunks`: starting from
the previous chunk's window (or `(0, 1)` for chunk 0), advance `windowbegin`
while the chunk starts more than `W/2` samples after it, and advance
`windowend` while the next chunk would still end within `W/2` samples. -/
def windowStep (base : List RandomizedChunk) (numChunks half c : Nat)
    (prev : Nat × Nat) : Nat × Nat :=
  let wb := advanceWhile
    (fun x => decide (half < sampleStartAt base c - sampleStartAt base x))
    (numChunks + 1) prev.1
  let we := advanceWhile
    (fun x => decide (x < numChunks) &&
      decide (sampleStartAt base (x + 1) - sampleStartAt base c < half))
    (numChunks + 1) prev.2
  (wb, we)

/-- Window pass of `RandomizeChunks` over chunks `c, c+1, …` (fuel counts the
remaining chunks), threading each chunk's window to the next. -/
def windowsFrom (base : List RandomizedChunk) (numChunks half : Nat) :
    Nat → Nat → Nat × Nat → List (Nat × Nat)
  | 0, _, _ => []
  | k + 1, c, prev =>
    let w := windowStep base numChunks half c prev
    w :: windowsFrom base numChunks half k (c + 1) w

/-- Writes the computed windows back into the chunk list (the sentinel, which
has no window, is left as is). -/
def applyWindows : List RandomizedChunk → List (Nat × Nat) → List RandomizedChunk
  | cs, [] => cs
  | [], _ :: _ => []
  | c :: cs, w :: ws =>
    { c with windowbegin := w.1, windowend := w.2 } :: applyWindows cs ws

/-- Construction of `m_sequencePositionToChunkIndex`: chunk index `k` repeated
once per sequence of randomized chunk `k`. -/
def mkPosToChunk (chunks : List RandomizedChunk) (numChunks : Nat) : List Nat :=
  (List.range numChunks).flatMap fun k =>
    List.replicate (seqStartAt chunks (k + 1) - seqStartAt chunks k) k

/-- Embedding of `BlockRandomizer::RandomizeChunks`: shuffle the chunk
indices seeded by the sweep, place them on the timeline, compute the
randomization windows, and derive the sequence-position-to-chunk map. -/
def RandomizeChunks (f : Nat → Nat → Nat) (br : BR0) (sweep sweepStart : Nat) :
    Option (List RandomizedChunk × List Nat × RngState) :=
  match randomShuffle f (List.range br.numChunks) sweep with
  | none => none
  | some (perm, r') =>
    let base := placeChunksGo br.chunkInformation perm 0 sweepStart
    let half := br.randomizationRangeInSamples / 2
    let ws := windowsFrom base br.numChunks half br.numChunks 0 (0, 1)
    let chunks := applyWindows base ws
    some (chunks, mkPosToChunk chunks br.numChunks, r')

/-- Embedding of `BlockRandomizer::IsValidForPosition`: the chunk id of
`seqDesc` must lie in the window of the chunk owning `targetPosition`. -/
def IsValidForPosition (chunks : List RandomizedChunk) (posToChunk : List Nat)
    (targetPosition : Nat) (seqDesc : SequenceDescription) : Bool :=
  let chunk := chunks.getD (posToChunk.getD targetPosition 0) default
  decide (chunk.windowbegin ≤ seqDesc.chunkId) &&
    decide (seqDesc.chunkId < chunk.windowend)

/-- Setup of `m_randomTimeline` before the in-window shuffle: the sequences of
each randomized chunk in order, each with its `chunkId` rewritten to the
chunk's randomized position. -/
def initialTimeline (br : BR0) (chunks : List RandomizedChunk) :
    List SequenceDescription :=
  (List.range br.numChunks).flatMap fun chunkId =>
    let orig := (chunks.getD chunkId default).originalChunkIndex
    let s := (br.chunkInformation.getD orig default).sequencePositionStart
    let e := (br.chunkInformation.getD (orig + 1) default).sequencePositionStart
    (List.range' s (e - s)).map fun pos =>
      { br.timeline.getD pos default with chunkId := chunkId }

/-- Retry loop (`for (;;)`) of the sequence shuffle at position `i`: pick `j`
in `[posbegin, posend)` until the two `IsValidForPosition` checks accept the
swap; the fuel bounds the retries (`none` models divergence). -/
def trySwap (f : Nat → Nat → Nat) (chunks : List RandomizedChunk)
    (posToChunk : List Nat) (i posbegin posend : Nat) :
    Nat → List SequenceDescription → RngState →
    Option (List SequenceDescription × RngState)
  | 0, _, _ => none
  | fuel + 1, tl, r =>
    match randRange f posbegin posend r with
    | none => none
    | some (j, r') =>
      if IsValidForPosition chunks posToChunk i (tl.getD j default) &&
          IsValidForPosition chunks posToChunk j (tl.getD i default)
      then some (listSwap tl i j, r')
      else trySwap f chunks posToChunk i posbegin posend fuel tl r'

/-- Outer loop of the sequence shuffle over positions `i` (first argument is
the number of remaining positions): for each `i`, derive the valid
randomization range in sequence positions from the window of `i`'s chunk and
run the retry loop. -/
def shuffleSeqLoop (f : Nat → Nat → Nat) (chunks : List RandomizedChunk)
    (posToChunk : List Nat) (rFuel : Nat) :
    Nat → Nat → List SequenceDescription → RngState →
    Option (List SequenceDescription × RngState)
  | 0, _, tl, r => some (tl, r)
  | k + 1, i, tl, r =>
    let cId := posToChunk.getD i 0
    let wb := (chunks.getD cId default).windowbegin
    let we := (chunks.getD cId default).windowend
    let posbegin := seqStartAt chunks wb
    let posend := seqStartAt chunks we
    match trySwap f chunks posToChunk i posbegin posend rFuel tl r with
    | none => none
    | some (tl', r') => shuffleSeqLoop f chunks posToChunk rFuel k (i + 1) tl' r'

/-- Embedding of `BlockRandomizer::Randomize`: chunk randomization, initial
chunk-ordered timeline, in-window shuffle seeded with `sweep + 1`, and the
final verification pass (`LogicError` when any position violates its window,
modelled as `none`). -/
def Randomize (f : Nat → Nat → Nat) (br : BR0) (sweep sweepStart rFuel : Nat) :
    Option (List RandomizedChunk × List Nat × List SequenceDescription × RngState) :=
  match RandomizeChunks f br sweep sweepStart with
  | none => none
  | some (chunks, posToChunk, _) =>
    let tl0 := initialTimeline br chunks
    match shuffleSeqLoop f chunks posToChunk rFuel tl0.length 0 tl0
        (srandR (sweep + 1)) with
    | none => none
    | some (tl, r3) =>
      if (List.range tl.length).all
          (fun i => IsValidForPosition chunks posToChunk i (tl.getD i default))
      then some (chunks, posToChunk, tl, r3)
      else none

/-! ## Epoch iteration (`StartEpoch`, `GetNextSequences`) -/

/-- Per-epoch parameters (`EpochConfiguration`). -/
structure EpochConfiguration where
  index : Nat
  totalSize : Nat
  workerRank : Nat
  numberOfWorkers : Nat
  deriving DecidableEq

/-- Modelled from the spec: the sentinel value of `requestedEpochSamples`
(`requestDataSize`, declared in `DataReader.h`, which is not under `src/`)
meaning "use the sweep size as the epoch size". -/
def requestDataSize : Nat := SIZEMAX

/-- Mutable state of a `BlockRandomizer` between calls: the constructed
fields, the per-epoch worker configuration and budget, the per-sweep
randomization products, the two cursors, and the C runtime PRNG state. -/
structure BRState where
  br : BR0
  workerRank : Nat
  numberOfWorkers : Nat
  epochSize : Nat
  sweep : Nat
  sweepStartInSamples : Nat
  randomizedChunks : List RandomizedChunk
  sequencePositionToChunkIndex : List Nat
  randomTimeline : List SequenceDescription
  samplePositionInEpoch : Nat
  sequencePositionInSweep : Nat
  rng : RngState
  deriving DecidableEq

/-- State right after the `BlockRandomizer` constructor: sweep, cursors and
epoch size are `SIZE_MAX` sentinels; nothing is randomized yet. -/
def initialState (br : BR0) : BRState :=
  { br := br, workerRank := 0, numberOfWorkers := 0, epochSize := SIZEMAX,
    sweep := SIZEMAX, sweepStartInSamples := 0, randomizedChunks := [],
    sequencePositionToChunkIndex := [], randomTimeline := [],
    samplePositionInEpoch := SIZEMAX, sequencePositionInSweep := SIZEMAX,
    rng := srandR 1 }

instance : Inhabited BRState := ⟨initialState ⟨[], [], 0, 0, 0, false, 0⟩⟩

/-- Shared cursor update of the skip path (`AdvanceToNextPositionForThisWorker`)
and the take path (`GetNextSequences`): charge the sequence's samples to the
epoch budget and advance the sweep cursor. -/
def bumpPosition (st : BRState) (seqDesc : SequenceDescription) : BRState :=
  { st with samplePositionInEpoch := st.samplePositionInEpoch + seqDesc.numberOfSamples,
            sequencePositionInSweep := st.sequencePositionInSweep + 1 }

/-- Embedding of `BlockRandomizer::RandomizeIfNewSweepIsEntered`: at the end
of a sweep, advance the sweep counters, re-randomize, and reset the cursor. -/
def RandomizeIfNewSweepIsEntered (f : Nat → Nat → Nat) (rFuel : Nat)
    (st : BRState) : Option BRState :=
  if st.br.numSequences ≤ st.sequencePositionInSweep then
    match Randomize f st.br (st.sweep + 1)
        (st.sweepStartInSamples + st.br.numSamples) rFuel with
    | none => none
    | some (chunks, posToChunk, tl, r) =>
      some { st with sweep := st.sweep + 1,
                     sweepStartInSamples := st.sweepStartInSamples + st.br.numSamples,
                     randomizedChunks := chunks,
                     sequencePositionToChunkIndex := posToChunk,
                     randomTimeline := tl,
                     sequencePositionInSweep := 0,
                     rng := r }
  else some st

/-- Embedding of `BlockRandomizer::RandomizeForGlobalSamplePosition`. -/
def RandomizeForGlobalSamplePosition (f : Nat → Nat → Nat) (rFuel : Nat)
    (st : BRState) (samplePosition : Nat) : Option BRState :=
  let sweep := samplePosition / st.br.numSamples
  if st.sweep ≠ sweep then
    match Randomize f st.br sweep (sweep * st.br.numSamples) rFuel with
    | none => none
    | some (chunks, posToChunk, tl, r) =>
      some { st with sweep := sweep,
                     sweepStartInSamples := sweep * st.br.numSamples,
                     randomizedChunks := chunks,
                     sequencePositionToChunkIndex := posToChunk,
                     randomTimeline := tl,
                     sequencePositionInSweep := samplePosition % st.br.numSamples,
                     rng := r }
  else
    some { st with sequencePositionInSweep := samplePosition % st.br.numSamples }

/-- Embedding of `BlockRandomizer::StartEpoch` on a freshly constructed
randomizer: record worker rank and count, resolve the epoch size (the
`requestDataSize` sentinel means one sweep), and reposition to the global
sample position `epochSize * index` (a `size_t` product).  The two asserts —
frame mode, and the timeframe not being the `SIZE_MAX` init sentinel — are
fatal checks. -/
def StartEpoch (f : Nat → Nat → Nat) (rFuel : Nat) (br : BR0)
    (config : EpochConfiguration) : Option BRState :=
  let epochSize := if config.totalSize = requestDataSize then br.numSamples
    else config.totalSize
  let timeframe := epochSize * config.index % 2 ^ 64
  if br.frameMode = true ∧ timeframe ≠ SIZEMAX then
    RandomizeForGlobalSamplePosition f rFuel
      { (initialState br) with
        workerRank := config.workerRank,
        numberOfWorkers := config.numberOfWorkers,
        epochSize := epochSize,
        samplePositionInEpoch := 0 }
      timeframe
  else none

/-- Embedding of `BlockRandomizer::AdvanceToNextPositionForThisWorker`: while
the epoch budget remains, enter the next sweep if needed and stop at the first
sequence whose randomized chunk id is congruent to this worker's rank, still
charging skipped sequences to the budget; returns whether the budget was
exhausted.  The fuel bounds the number of skips (each skip consumes budget, so
`epochSize + 1` is always enough for valid frame-mode input). -/
def AdvanceToNextPositionForThisWorker (f : Nat → Nat → Nat) (rFuel : Nat) :
    Nat → BRState → Option (Bool × BRState)
  | 0, st =>
    if st.samplePositionInEpoch < st.epochSize then none else some (true, st)
  | fuel + 1, st =>
    if st.samplePositionInEpoch < st.epochSize then
      match RandomizeIfNewSweepIsEntered f rFuel st with
      | none => none
      | some st1 =>
        let seqDesc := st1.randomTimeline.getD st1.sequencePositionInSweep default
        if seqDesc.chunkId % st1.numberOfWorkers = st1.workerRank then
          some (false, st1)
        else
          AdvanceToNextPositionForThisWorker f rFuel fuel (bumpPosition st1 seqDesc)
    else some (true, st)

/-- One yielded sequence, identified globally: the sweep it was taken in, its
position in that sweep's randomized timeline, and the (rewritten) sequence
description found there. -/
abbrev Item := Nat × Nat × SequenceDescription

/-- The id-collection loop of `BlockRandomizer::GetNextSequences`: up to
`count` sequences for this worker, ending early with `endOfEpoch` when the
budget runs out. -/
def gnsLoop (f : Nat → Nat → Nat) (rFuel aFuel : Nat) :
    Nat → BRState → Option (List Item × Bool × BRState)
  | 0, st => some ([], false, st)
  | count + 1, st =>
    match AdvanceToNextPositionForThisWorker f rFuel aFuel st with
    | none => none
    | some (eoe, st1) =>
      if eoe then some ([], true, st1)
      else
        let seqDesc := st1.randomTimeline.getD st1.sequencePositionInSweep default
        match gnsLoop f rFuel aFuel count (bumpPosition st1 seqDesc) with
        | none => none
        | some (items, eoe2, st2) =>
          some ((st1.sweep, st1.sequencePositionInSweep, seqDesc) :: items, eoe2, st2)

/-- Calls issued to the deserializer by the chunk-lifecycle loop. -/
inductive ChunkEvent
  | require (originalChunkIndex : Nat)
  | release (originalChunkIndex : Nat)
  deriving DecidableEq

/-- Result of one `GetNextSequences` call: the yielded sequences, the
end-of-epoch flag, the require/release calls issued, and the original ids
passed to `GetSequencesById`. -/
structure GNSResult where
  items : List Item
  endOfEpoch : Bool
  chunkEvents : List ChunkEvent
  originalIds : List Nat
  deriving DecidableEq

instance : Inhabited GNSResult := ⟨⟨[], false, [], []⟩⟩

/-- Window begin used by the chunk-lifecycle loop: the `windowbegin` of the
chunk owning the first collected id. -/
def gnsWindowBegin (st : BRState) (ids : List Nat) : Nat :=
  (st.randomizedChunks.getD
    (st.sequencePositionToChunkIndex.getD (ids.headD 0) 0) default).windowbegin

/-- Window end used by the chunk-lifecycle loop: the `windowend` of the chunk
owning the last collected id. -/
def gnsWindowEnd (st : BRState) (ids : List Nat) : Nat :=
  (st.randomizedChunks.getD
    (st.sequencePositionToChunkIndex.getD (ids.getLastD 0) 0) default).windowend

/-- Chunk-lifecycle loop of `GetNextSequences`: for every randomized chunk
index, require its original chunk if the index lies in
`[windowbegin, windowend)`, release it otherwise. -/
def chunkEventsFor (st : BRState) (windowbegin windowend : Nat) : List ChunkEvent :=
  (List.range st.br.numChunks).map fun chunkId =>
    let orig := (st.randomizedChunks.getD chunkId default).originalChunkIndex
    if windowbegin ≤ chunkId ∧ chunkId < windowend then ChunkEvent.require orig
    else ChunkEvent.release orig

/-- Embedding of `BlockRandomizer::GetNextSequences`: collect ids, and unless
none were collected, require/release chunks against the union window of the
first and last id and translate the collected positions to original ids. -/
def GetNextSequences (f : Nat → Nat → Nat) (rFuel aFuel count : Nat)
    (st : BRState) : Option (GNSResult × BRState) :=
  match gnsLoop f rFuel aFuel count st with
  | none => none
  | some (items, eoe, st1) =>
    if items.isEmpty then
      some ({ items := [], endOfEpoch := eoe, chunkEvents := [],
              originalIds := [] }, st1)
    else
      let ids := items.map (fun it => it.2.1)
      some ({ items := items, endOfEpoch := eoe,
              chunkEvents := chunkEventsFor st1 (gnsWindowBegin st1 ids)
                (gnsWindowEnd st1 ids),
              originalIds := ids.map fun id =>
                (st1.randomTimeline.getD id default).id }, st1)

/-- Whether the sequence of an item belongs to the worker of rank
`workerRank` among `numberOfWorkers` (the distributed partition criterion:
randomized chunk id modulo the worker count). -/
def belongsTo (numberOfWorkers workerRank : Nat) (it : Item) : Bool :=
  decide (it.2.2.chunkId % numberOfWorkers = workerRank)

/-- A full epoch as driven by a training loop: repeated `GetNextSequences`
calls of `count` sequences each, concatenating the yields, until a call
reports `endOfEpoch` (the call budget `calls` bounds the loop). -/
def runEpoch (f : Nat → Nat → Nat) (rFuel aFuel count : Nat) :
    Nat → BRState → Option (List Item)
  | 0, _ => none
  | calls + 1, st =>
    match GetNextSequences f rFuel aFuel count st with
    | none => none
    | some (res, st1) =>
      if res.endOfEpoch then some res.items
      else
        match runEpoch f rFuel aFuel count calls st1 with
        | none => none
        | some items => some (res.items ++ items)

/-- Worker-independent reference traversal of the epoch: the sequence of
positions every worker walks over (yielding or skipping each), with their
sweep, position and description; it advances the cursors exactly as the
skip/take paths do and stops when the epoch budget is exhausted. -/
def visitTrace (f : Nat → Nat → Nat) (rFuel : Nat) :
    Nat → BRState → Option (List Item)
  | 0, st =>
    if st.epochSize ≤ st.samplePositionInEpoch then some [] else none
  | fuel + 1, st =>
    if st.epochSize ≤ st.samplePositionInEpoch then some []
    else
      match RandomizeIfNewSweepIsEntered f rFuel st with
      | none => none
      | some st1 =>
        let seqDesc := st1.randomTimeline.getD st1.sequencePositionInSweep default
        match visitTrace f rFuel fuel (bumpPosition st1 seqDesc) with
        | none => none
        | some rest =>
          some ((st1.sweep, st1.sequencePositionInSweep, seqDesc) :: rest)

/-- Copy of a state with the worker identity replaced (all workers of one
epoch share every other field). -/
def withWorker (st : BRState) (workerRank numberOfWorkers : Nat) : BRState :=
  { st with workerRank := workerRank, numberOfWorkers := numberOfWorkers }

/-- Complete epoch run of one worker: construction already done (`br`), start
the epoch with the given configuration, then drain it. -/
def workerRun (f : Nat → Nat → Nat) (rFuel aFuel count calls : Nat) (br : BR0)
    (index totalSize workerRank numberOfWorkers : Nat) : Option (List Item) :=
  match StartEpoch f rFuel br ⟨index, totalSize, workerRank, numberOfWorkers⟩ with
  | none => none
  | some st => runEpoch f rFuel aFuel count calls st

/-- Reference trace of the epoch, computed from the single-worker start
state. -/
def epochTrace (f : Nat → Nat → Nat) (rFuel tFuel : Nat) (br : BR0)
    (index totalSize : Nat) : Option (List Item) :=
  match StartEpoch f rFuel br ⟨index, totalSize, 0, 1⟩ with
  | none => none
  | some st => visitTrace f rFuel tFuel st

/-! ## FrameModePacker (`FrameModePacker.cpp`) and ReaderShim (`ReaderShim.cpp`)

Buffers are embedded at element granularity: one list entry per matrix
element, so `dimensions = sampleLayout->GetNumElements()` and the sparse
scatter writes element `rowIndex` of a sample's slot (the source works in
bytes, with every offset scaled by `elementSize`). -/

/-- Storage class of a stream (`StorageType`). -/
inductive StorageType
  | dense
  | sparse_csc
  deriving DecidableEq

/-- Stream description as used by the packer: storage class and elements per
sample. -/
structure StreamDescriptionM where
  storageType : StorageType
  sampleElements : Nat
  deriving DecidableEq

/-- Decoded payload of one sequence for one stream (`SequenceData`): flat
element values, sample count, and the per-sample sparse row indices (used
only by the `sparse_csc` path). -/
structure SequenceDataM where
  values : List Nat
  numberOfSamples : Nat
  indices : List (List Nat)
  deriving DecidableEq

instance : Inhabited SequenceDataM := ⟨⟨[], 0, []⟩⟩

/-- Batch handed over by the transformer chain (`Sequences`). -/
structure SequencesM where
  data : List (List SequenceDataM)
  endOfEpoch : Bool
  deriving DecidableEq

/-- Packed minibatch (`Minibatch`): flag plus, per output stream, the packed
buffer contents and the byte-count-analogue `dataSize`. -/
structure MinibatchM where
  atEndOfEpoch : Bool
  streamData : List (List Nat)
  dataSizes : List Nat
  deriving DecidableEq

/-- Overwrite of `src.length` elements of `buf` at `offset` (`std::copy` to
`buffer + offset`). -/
def writeRange (buf : List Nat) (offset : Nat) (src : List Nat) : List Nat :=
  buf.take offset ++ src ++ buf.drop (offset + src.length)

/-- Packing of sample `i`'s payload for one stream into that stream's buffer:
dense payloads are copied to slot `i`; sparse ones zero the slot and scatter
the nonzero values to their row positions. -/
def packSampleStream (stream : StreamDescriptionM) (i : Nat)
    (sd : SequenceDataM) (buf : List Nat) : List Nat :=
  let dim := stream.sampleElements
  match stream.storageType with
  | StorageType.dense => writeRange buf (i * dim) (sd.values.take dim)
  | StorageType.sparse_csc =>
    let zeroed := writeRange buf (i * dim) (List.replicate dim 0)
    (List.range (sd.indices.headD []).length).foldl
      (fun b nz => b.set (i * dim + (sd.indices.headD []).getD nz 0)
        (sd.values.getD nz 0)) zeroed

/-- Inner loop of `ReadMinibatch` over the streams of sample `i`. -/
def packSample (inputStreams : List StreamDescriptionM) (i : Nat)
    (sample : List SequenceDataM) (bufs : List (List Nat)) : List (List Nat) :=
  (List.range bufs.length).map fun j =>
    packSampleStream (inputStreams.getD j ⟨StorageType.dense, 0⟩) i
      (sample.getD j default) (bufs.getD j [])

/-- Outer loop of `ReadMinibatch` over the samples, threading the stream
buffers (`i` is the running sample index). -/
def packLoop (inputStreams : List StreamDescriptionM) :
    Nat → List (List SequenceDataM) → List (List Nat) → List (List Nat)
  | _, [], bufs => bufs
  | i, sample :: rest, bufs =>
    packLoop inputStreams (i + 1) rest (packSample inputStreams i sample bufs)

/-- Embedding of `FrameModePacker::ReadMinibatch`: propagate the upstream
`endOfEpoch` flag, pack every delivered sample into the per-stream buffers,
and unless nothing was delivered, publish one stream per output descriptor
with `dataSize = count * sampleElements`.  Returns the minibatch and the
updated buffers. -/
def ReadMinibatch (inputStreams outputStreams : List StreamDescriptionM)
    (bufs : List (List Nat)) (images : SequencesM) :
    MinibatchM × List (List Nat) :=
  let bufs2 := packLoop inputStreams 0 images.data bufs
  if images.data.length = 0 then
    ({ atEndOfEpoch := images.endOfEpoch, streamData := [], dataSizes := [] },
      bufs2)
  else
    ({ atEndOfEpoch := images.endOfEpoch,
       streamData := bufs2,
       dataSizes := outputStreams.map fun s =>
        images.data.length * s.sampleElements }, bufs2)

/-- Embedding of `ReaderShim::GetMinibatch` as a function of the prior
`m_endOfEpoch` flag and the minibatch the packer would produce: returns the
call's boolean result, the new flag, and the payload writes (stream index and
data) performed into the caller's matrices.  When the flag is already set the
shim returns false immediately, without reading a minibatch or writing any
payload. -/
def shimGetMinibatch (endOfEpochFlag : Bool) (m : MinibatchM) :
    Bool × Bool × List (Nat × List Nat) :=
  if endOfEpochFlag then (false, endOfEpochFlag, [])
  else
    let flag2 := if m.atEndOfEpoch then true else endOfEpochFlag
    if m.streamData.isEmpty then (false, flag2, [])
    else (true, flag2,
      (List.range m.streamData.length).map fun j => (j, m.streamData.getD j []))

/-! ## Spec-side characterisations of the randomization windows (C2)

These two predicates state, in the claim's vocabulary, what a computed
`windowbegin` / `windowend` value is; they are compared against the values
produced by `RandomizeChunks`. -/

/-- WBChar half c wb: `wb` is the smallest index (necessarily `≤ c`) such that
`sampleStart(c) − sampleStart(wb) ≤ half` — the claim's description of
`windowbegin`. -/
def WBChar (base : List RandomizedChunk) (half c wb : Nat) : Prop :=
  wb ≤ c ∧ sampleStartAt base c - sampleStartAt base wb ≤ half ∧
    ∀ z, z < wb → half < sampleStartAt base c - sampleStartAt base z

/-- WEChar n half c init we: `we` is the smallest index at or after `init`
(the previous chunk's `windowend`, or 1 for chunk 0) at which the window can
no longer grow: either `we = n` (all chunks) or the chunk after `we` already
ends `≥ half` samples past the start of `c`.  This is the corrected
description of `windowend`. -/
def WEChar (base : List RandomizedChunk) (n half c init we : Nat) : Prop :=
  init ≤ we ∧ we ≤ n ∧
    (we = n ∨ half ≤ sampleStartAt base (we + 1) - sampleStartAt base c) ∧
    ∀ z, init ≤ z → z < we →
      z < n ∧ sampleStartAt base (z + 1) - sampleStartAt base c < half

/-! ## Concrete instances used to witness the randomizer theorems -/

/-- Degenerate PRNG whose every call returns 0 (one admissible behaviour of
the abstract C runtime PRNG). -/
def fZero : Nat → Nat → Nat := fun _ _ => 0

/-- Fallback `BR0` used only as a `getD` default. -/
def brDefault : BR0 := ⟨[], [], 0, 0, 0, false, 0⟩

/-- Singleton frame-mode timeline. -/
def tlW1 : List SequenceDescription := [⟨0, 0, 1⟩]

/-- Randomizer constructed over `tlW1` with window 0. -/
def brW1 : BR0 := (mkBlockRandomizer 0 tlW1).getD brDefault

/-- Output of `Randomize` on `brW1` for sweep 0 under `fZero`. -/
def rzW1 : List RandomizedChunk × List Nat × List SequenceDescription × RngState :=
  (Randomize fZero brW1 0 0 1).getD default

/-- Scenario-S1-style timeline of 2 chunks with 10 single-sample sequences
each, used to exhibit the `windowend` off-by-one of claim C2. -/
def tlC2 : List SequenceDescription :=
  (List.range 20).map fun k => ⟨k, k / 10, 1⟩

/-- Randomizer over `tlC2` with `randomizationRangeInSamples = 30`
(`W/2 = 15`). -/
def brC2 : BR0 := (mkBlockRandomizer 30 tlC2).getD brDefault

/-- Output of `RandomizeChunks` on `brC2`, sweep 0, under `fZero`. -/
def rcC2 : List RandomizedChunk × List Nat × RngState :=
  (RandomizeChunks fZero brC2 0 0).getD default

/-- Two-chunk frame-mode randomizer with a window spanning the whole corpus,
used to witness the epoch-iteration theorems. -/
def brC3 : BR0 :=
  (mkBlockRandomizer 100 [⟨0, 0, 1⟩, ⟨1, 1, 1⟩]).getD brDefault

/-- Single-worker epoch start state over `brC3` (epoch 0, two samples). -/
def stC3 : BRState := (StartEpoch fZero 9 brC3 ⟨0, 2, 0, 1⟩).getD default

/-- One full `GetNextSequences` call on `stC3` requesting both sequences. -/
def gnsC4 : GNSResult × BRState := (GetNextSequences fZero 9 9 2 stC3).getD default

/-- Reference visit trace of the epoch over `brC3`. -/
def trC3 : List Item := (epochTrace fZero 9 9 brC3 0 2).getD []

/-! ## Theorems for the transformer and memory-provider claims -/

/-- C6: for positive image dimensions and a ratio in `(0, 1]`, `GetCropRect`
with `center` returns the square of side `S = ⌊min(crow, ccol) · ratio⌋` at
offsets `((ccol − S)/2, (crow − S)/2)`, and with `random` returns a square of
side `S` whose offsets range exactly over `[0, ccol − S] × [0, crow − S]`
(every draw lands in the box, and every point of the box is realised by some
draw of the uniform integer distribution). -/
theorem GetCropRect_spec (crow ccol : Nat) (ratio : ℚ) (S : Nat)
    (hrow : 0 < crow) (hcol : 0 < ccol) (hr0 : 0 < ratio) (hr1 : ratio ≤ 1)
    (hS : S = (⌊(min crow ccol : ℚ) * ratio⌋).toNat) :
    (∀ d1 d2 : Nat, GetCropRect CropType.center crow ccol ratio d1 d2 =
        ⟨(ccol - S) / 2, (crow - S) / 2, S, S⟩)
    ∧ (∀ d1 d2 : Nat,
        (GetCropRect CropType.random crow ccol ratio d1 d2).x ≤ ccol - S ∧
        (GetCropRect CropType.random crow ccol ratio d1 d2).y ≤ crow - S ∧
        (GetCropRect CropType.random crow ccol ratio d1 d2).width = S ∧
        (GetCropRect CropType.random crow ccol ratio d1 d2).height = S)
    ∧ (∀ xOff yOff : Nat, xOff ≤ ccol - S → yOff ≤ crow - S →
        ∃ d1 d2 : Nat, GetCropRect CropType.random crow ccol ratio d1 d2 =
          ⟨xOff, yOff, S, S⟩) := by
  subst hS
  refine ⟨fun d1 d2 => rfl, fun d1 d2 => ?_, fun xOff yOff hx hy => ?_⟩
  · refine ⟨?_, ?_, rfl, rfl⟩
    · simpa [GetCropRect, UniIntT, Nat.lt_succ_iff] using
        Nat.mod_lt d1 (Nat.succ_pos _)
    · simpa [GetCropRect, UniIntT, Nat.lt_succ_iff] using
        Nat.mod_lt d2 (Nat.succ_pos _)
  · refine ⟨xOff, yOff, ?_⟩
    simp [GetCropRect, UniIntT,
      Nat.mod_eq_of_lt (Nat.lt_succ_of_le hx), Nat.mod_eq_of_lt (Nat.lt_succ_of_le hy)]

/-- C6 witness: scenario S3 — a center crop with ratio `1/2` on a `100 × 200`
sample is the `50 × 50` square at offsets `(75, 25)`. -/
theorem GetCropRect_spec_witness :
    GetCropRect CropType.center 100 200 (1 / 2 : ℚ) 0 0 = ⟨75, 25, 50, 50⟩ := by
  have h := (GetCropRect_spec 100 200 (1 / 2 : ℚ) 50 (by decide) (by decide)
    (by norm_num) (by norm_num) (by norm_num; rfl)).1 0 0
  exact h

/-- C8 counterexample: a loaded mean of size `1 × 1` with 2 channels against a
`1 × 1` single-channel input matches in size but not in channel count.  The
claim says the input is left unchanged, but `MeanTransformer::Apply` tests only
`m_meanImg.size() == mat.size()` and attempts the subtraction, which fails on
the channel mismatch. -/
theorem meanApply_counterexample :
    meanApply ⟨1, 1, 2, [5, 6]⟩ ⟨1, 1, 1, [7]⟩ ≠ some ⟨1, 1, 1, [7]⟩ ∧
    meanApply ⟨1, 1, 2, [5, 6]⟩ ⟨1, 1, 1, [7]⟩ = none := by decide

/-- C8 (amended): `MeanTransformer::Apply` subtracts the mean elementwise iff
the mean's rows/columns and channel count all match the input's; when only the
rows/columns match the subtraction is still attempted and fails (the channel
count is checked only by an assertion), and in every remaining case —
including an empty `meanFile`, where no mean is loaded — the input is left
unchanged. -/
theorem meanApply_spec (meanImg mat : MatM) :
    (meanImg.rows = mat.rows → meanImg.cols = mat.cols →
      meanImg.channels = mat.channels →
      meanApply meanImg mat = some (matSub mat meanImg))
    ∧ (¬(meanImg.rows = mat.rows ∧ meanImg.cols = mat.cols) →
      meanApply meanImg mat = some mat)
    ∧ (meanImg.rows = mat.rows → meanImg.cols = mat.cols →
      meanImg.channels ≠ mat.channels → meanApply meanImg mat = none)
    ∧ (0 < mat.rows → meanApply emptyMeanImg mat = some mat) := by
  refine ⟨fun h1 h2 h3 => ?_, fun h => ?_, fun h1 h2 h3 => ?_, fun h => ?_⟩
  · simp [meanApply, h1, h2, h3]
  · simp [meanApply, h]
  · simp [meanApply, h1, h2, h3]
  · have : ¬(emptyMeanImg.rows = mat.rows ∧ emptyMeanImg.cols = mat.cols) := by
      simp only [emptyMeanImg]
      intro hc
      omega
    simp [meanApply, this]

/-- C8 witness: subtracting a matching mean equal to the input zeroes the
buffer, and an empty mean leaves a nonempty input unchanged. -/
theorem meanApply_spec_witness :
    meanApply ⟨1, 1, 1, [5]⟩ ⟨1, 1, 1, [5]⟩ = some ⟨1, 1, 1, [0]⟩ ∧
    meanApply emptyMeanImg ⟨1, 1, 1, [5]⟩ = some ⟨1, 1, 1, [5]⟩ := by
  constructor
  · have h := (meanApply_spec ⟨1, 1, 1, [5]⟩ ⟨1, 1, 1, [5]⟩).1 rfl rfl rfl
    rw [h]; decide
  · exact (meanApply_spec emptyMeanImg ⟨1, 1, 1, [5]⟩).2.2.2 (by decide)

/-- C9 counterexample: the `interpolations` string `"foo"` contains a token
outside `{nearest, linear, cubic, lanczos}`, yet `ScaleTransformer`
initialization succeeds — the unknown token is silently dropped and the list
defaults to `linear` — contradicting the claim that it fails fatally. -/
theorem scaleInit_counterexample :
    interpLookup "foo" = none ∧
    scaleInitFromConfig 2 2 1 "foo" = some (2, 2, 1, [InterpKind.linear]) := by
  constructor <;> decide

/-- C9 (amended): unknown `interpolations` tokens are silently ignored rather
than fatal: initialization succeeds for every token string whenever the image
dimensions are valid, and when no token is recognised the interpolation list
defaults to `linear`; by contrast `CropTransformer::ParseCropType` does fail
fatally on every string that is neither empty nor (case-insensitively)
`center` nor `random`. -/
theorem scaleInit_spec :
    (∀ (w h c : Nat) (s : String),
      ¬(w * h * c % 2 ^ 64 = 0 ∨ SIZEMAX / 2 < w * h * c % 2 ^ 64) →
      scaleInitFromConfig w h c s = some (w, h, c, parseInterpolations s))
    ∧ (∀ s : String, (∀ t ∈ (getlineTokens s).map strToLower, interpLookup t = none) →
      parseInterpolations s = [InterpKind.linear])
    ∧ (∀ s : String, s ≠ "" → strToLower s ≠ "center" → strToLower s ≠ "random" →
      ParseCropType s = none) := by
  refine ⟨fun w h c s hdim => ?_, fun s hall => ?_, fun s h0 h1 h2 => ?_⟩
  · simp only [scaleInitFromConfig, if_neg hdim]
  · have : ((getlineTokens s).map strToLower).filterMap interpLookup = [] :=
      List.filterMap_eq_nil_iff.mpr hall
    simp [parseInterpolations, this]
  · simp [ParseCropType, h0, h1, h2]

/-- C9 witness: concrete instances — valid dimensions with an unrecognised
token succeed with the `linear` default, and `ParseCropType "fancy"` fails. -/
theorem scaleInit_spec_witness :
    scaleInitFromConfig 2 2 1 "nope" = some (2, 2, 1, parseInterpolations "nope") ∧
    parseInterpolations "nope" = [InterpKind.linear] ∧
    ParseCropType "fancy" = none := by
  refine ⟨scaleInit_spec.1 2 2 1 "nope" (by decide), ?_, ?_⟩
  · exact scaleInit_spec.2.1 "nope" (by decide)
  · exact scaleInit_spec.2.2 "fancy" (by decide) (by decide) (by decide)

/-- C10: `HeapMemoryProvider::Free` on a null pointer is a total no-op in
every heap state: it returns immediately, reads no word before the pointer,
and deallocates nothing. -/
theorem heapFree_null_noop : ∀ st : MemState, heapFree 0 st = (st, []) :=
  fun _ => rfl

/-! ## Timeline validity (C5) -/

/-- Unfolding of the `validStep` boolean into its four comparisons. -/
theorem validStep_iff (p c : SequenceDescription) :
    validStep p c = true ↔
      ((p.id + 1) % 2 ^ 64 = c.id ∧ p.chunkId ≤ c.chunkId ∧
        c.chunkId ≤ (p.chunkId + 1) % 2 ^ 64 ∧ 0 < c.numberOfSamples) := by
  simp [validStep]

/-- Wraparound of the initial previous id: `SIZE_MAX + 1` is 0. -/
theorem szmax_succ_mod : (SIZEMAX + 1) % 2 ^ 64 = 0 := by norm_num [SIZEMAX]

/-- Characterisation of the `IsValid` fold as a `List.Chain` of `validStep`. -/
theorem isValid_foldl (tl : List SequenceDescription) :
    ∀ (prev : SequenceDescription) (b : Bool),
      ((tl.foldl (fun acc current => (current, acc.2 && validStep acc.1 current))
        (prev, b)).2 = true) ↔
      (b = true ∧ List.Chain (fun p c => validStep p c = true) prev tl) := by
  induction tl with
  | nil => simp
  | cons hd tlr ih =>
    intro prev b
    simp only [List.foldl_cons, List.chain_cons]
    rw [ih]
    simp [Bool.and_eq_true, and_assoc]

/-- IsValid as a chain of `validStep` checks from the virtual initial
previous. -/
theorem isValid_iff_chain (tl : List SequenceDescription) :
    IsValid tl = true ↔ List.Chain (fun p c => validStep p c = true) initialPrevious tl := by
  unfold IsValid
  rw [isValid_foldl]
  simp

/-- Equivalence of the `validStep` chain with the indexed validity
conditions, for timelines that fit in a 64-bit address space. -/
theorem chain_iff_code (tl : List SequenceDescription) (hlen : tl.length < 2 ^ 64) :
    List.Chain (fun p c => validStep p c = true) initialPrevious tl ↔
      CodeTimelineValid tl := by
  rw [List.chain_iff_get]
  simp only [List.get_eq_getElem, validStep_iff]
  constructor
  · rintro ⟨h0, hstep⟩
    have hid : ∀ (k : Nat) (h : k < tl.length), tl[k].id = k := by
      intro k
      induction k with
      | zero =>
        intro h
        have h1 := (h0 h).1
        rw [show initialPrevious.id = SIZEMAX from rfl, szmax_succ_mod] at h1
        exact h1.symm
      | succ k ih =>
        intro h
        have hk : k < tl.length := Nat.lt_of_succ_lt h
        have hs := hstep k (by omega)
        have h1 := hs.1
        rw [ih hk, Nat.mod_eq_of_lt (by omega)] at h1
        exact h1.symm
    have hcb : ∀ (k : Nat) (h : k < tl.length), tl[k].chunkId ≤ k + 1 := by
      intro k
      induction k with
      | zero =>
        intro h
        have h1 := (h0 h).2.2.1
        simpa [initialPrevious] using h1
      | succ k ih =>
        intro h
        have hk : k < tl.length := Nat.lt_of_succ_lt h
        have hs := (hstep k (by omega)).2.2.1
        calc tl[k + 1].chunkId ≤ (tl[k].chunkId + 1) % 2 ^ 64 := hs
          _ ≤ tl[k].chunkId + 1 := Nat.mod_le _ _
          _ ≤ k + 2 := by have := ih hk; omega
    refine ⟨fun k h => ⟨hid k h, ?_⟩, fun k h => ?_, fun h => ?_⟩
    · match k, h with
      | 0, h => exact (h0 h).2.2.2
      | k + 1, h => exact (hstep k (by omega)).2.2.2
    · have hs := hstep k (by omega)
      refine ⟨hs.2.1, ?_⟩
      have hb : tl[k].chunkId + 1 < 2 ^ 64 := by
        have := hcb k (by omega)
        omega
      have := hs.2.2.1
      rwa [Nat.mod_eq_of_lt hb] at this
    · have h1 := (h0 h).2.2.1
      simpa [initialPrevious] using h1
  · rintro ⟨hids, hadj, hfirst⟩
    have hcb : ∀ (k : Nat) (h : k < tl.length), tl[k].chunkId ≤ k + 1 := by
      intro k
      induction k with
      | zero => intro h; exact hfirst h
      | succ k ih =>
        intro h
        have hk : k < tl.length := Nat.lt_of_succ_lt h
        have := (hadj k h).2
        have := ih hk
        omega
    constructor
    · intro h
      refine ⟨?_, ?_, ?_, (hids 0 h).2⟩
      · rw [show initialPrevious.id = SIZEMAX from rfl, szmax_succ_mod]
        exact ((hids 0 h).1).symm
      · exact Nat.zero_le _
      · have : ((initialPrevious.chunkId + 1) % 2 ^ 64) = 1 := by
          norm_num [initialPrevious]
        rw [this]
        exact hfirst h
    · intro i hi
      have hi1 : i + 1 < tl.length := by omega
      refine ⟨?_, (hadj i hi1).1, ?_, (hids (i + 1) hi1).2⟩
      · rw [(hids i (by omega)).1, Nat.mod_eq_of_lt (by omega)]
        exact ((hids (i + 1) hi1).1).symm
      · have hb : tl[i].chunkId + 1 < 2 ^ 64 := by
          have := hcb i (by omega)
          omega
        rw [Nat.mod_eq_of_lt hb]
        exact (hadj i hi1).2

/-- C5 counterexample: two timelines on which the claim fails.  The singleton
timeline `[{id 0, chunkId 2, samples 1}]` meets every condition the claim
lists (ids form `0,1,2,…`, no adjacent pair violates the chunk step, samples
positive), yet `IsValid` rejects it — the first chunk id is checked against a
virtual previous chunk id of 0 — and construction fails; the empty timeline
also meets the claim's conditions vacuously, yet construction dereferences
`timeline.back()` and cannot succeed. -/
theorem isValid_counterexample :
    ClaimTimelineValid [⟨0, 2, 1⟩] = true ∧ IsValid [⟨0, 2, 1⟩] = false ∧
    mkBlockRandomizer 10 [⟨0, 2, 1⟩] = none ∧
    ClaimTimelineValid [] = true ∧ mkBlockRandomizer 10 [] = none := by
  refine ⟨by decide, by decide, ?_, by decide, ?_⟩ <;> decide

/-- C5 (amended): `IsValid` returns true exactly on timelines satisfying the
claim's conditions strengthened with "the first sequence's chunk id is at
most 1", and construction succeeds exactly on the NONEMPTY such timelines
(for timelines of 64-bit length; construction on an empty timeline is
undefined behaviour — `timeline.back()` — modelled as failure). -/
theorem isValid_mk_spec (W : Nat) (tl : List SequenceDescription)
    (hlen : tl.length < 2 ^ 64) :
    (IsValid tl = true ↔ CodeTimelineValid tl) ∧
    ((mkBlockRandomizer W tl).isSome = true ↔ (CodeTimelineValid tl ∧ tl ≠ [])) := by
  have main : IsValid tl = true ↔ CodeTimelineValid tl :=
    (isValid_iff_chain tl).trans (chain_iff_code tl hlen)
  refine ⟨main, ?_⟩
  rw [← main]
  unfold mkBlockRandomizer
  by_cases hv : IsValid tl = true
  · rw [if_pos hv]
    cases hl : tl.getLast? with
    | none =>
      have : tl = [] := List.getLast?_eq_none_iff.mp hl
      simp [this, hv]
    | some last =>
      have : tl ≠ [] := by
        intro h
        rw [h] at hl
        simp at hl
      simp [this, hv]
  · rw [if_neg hv]
    simp [hv]

/-- C5 witness: the singleton timeline `[{id 0, chunkId 0, samples 1}]` is
accepted by `IsValid` and by the constructor. -/
theorem isValid_mk_spec_witness :
    IsValid [⟨0, 0, 1⟩] = true ∧
    (mkBlockRandomizer 10 [⟨0, 0, 1⟩]).isSome = true := by
  have h := isValid_mk_spec 10 [⟨0, 0, 1⟩] (by norm_num)
  have hc : CodeTimelineValid [⟨0, 0, 1⟩] := h.1.mp (by decide)
  exact ⟨h.1.mpr hc, h.2.mpr ⟨hc, by simp⟩⟩

/-! ## Window computation (C2) -/

/-- A fueled `while` never moves its counter backwards. -/
theorem advanceWhile_ge (p : Nat → Bool) : ∀ (fuel x : Nat), x ≤ advanceWhile p fuel x
  | 0, x => le_refl x
  | fuel + 1, x => by
    unfold advanceWhile
    split
    · exact le_trans (Nat.le_succ x) (advanceWhile_ge p fuel (x + 1))
    · exact le_refl x

/-- A fueled `while` stops exactly at the first failure of its predicate at or
after the start, provided the fuel reaches it. -/
theorem advanceWhile_eq_of (p : Nat → Bool) :
    ∀ (fuel x y : Nat), x ≤ y → p y = false → y ≤ x + fuel →
      (∀ z, x ≤ z → z < y → p z = true) → advanceWhile p fuel x = y
  | 0, x, y, hxy, _, hfuel, _ => by
    have hxeq : x = y := by omega
    simpa [advanceWhile] using hxeq
  | fuel + 1, x, y, hxy, hy, hfuel, hall => by
    unfold advanceWhile
    by_cases hpx : p x = true
    · rw [if_pos hpx]
      have hxy' : x + 1 ≤ y := by
        rcases Nat.lt_or_ge x y with hlt | hge
        · omega
        · exfalso
          have hxeq : x = y := by omega
          rw [hxeq, hy] at hpx
          cases hpx
      exact advanceWhile_eq_of p fuel (x + 1) y hxy' hy (by omega)
        (fun z hz1 hz2 => hall z (by omega) hz2)
    · rw [if_neg hpx]
      rcases Nat.lt_or_ge x y with hlt | hge
      · exact absurd (hall x (le_refl x) hlt) hpx
      · omega

/-- Swapping two positions preserves length. -/
theorem listSwap_length {α : Type} [Inhabited α] (l : List α) (i j : Nat) :
    (listSwap l i j).length = l.length := by
  simp [listSwap]

/-- A successful shuffle loop preserves the vector length. -/
theorem randomShuffleAux_length (f : Nat → Nat → Nat) (n : Nat) :
    ∀ (k : Nat) (v : List Nat) (r : RngState) (out : List Nat × RngState),
      randomShuffleAux f n k v r = some out → out.1.length = v.length
  | 0, v, r, out, h => by
    simp only [randomShuffleAux] at h
    cases h
    rfl
  | k + 1, v, r, out, h => by
    simp only [randomShuffleAux] at h
    cases hr : randRange f 0 n r with
    | none => rw [hr] at h; cases h
    | some pr =>
      obtain ⟨irand, r2⟩ := pr
      rw [hr] at h
      dsimp only at h
      have hlen := randomShuffleAux_length f n k _ r2 out h
      rw [hlen]
      split <;> simp [listSwap_length]

/-- A successful `randomShuffle` preserves the vector length. -/
theorem randomShuffle_length (f : Nat → Nat → Nat) (v : List Nat) (s : Nat)
    (out : List Nat × RngState) (h : randomShuffle f v s = some out) :
    out.1.length = v.length := by
  unfold randomShuffle at h
  split at h
  · cases h
  · exact randomShuffleAux_length f v.length v.length v (srandR s) out h

/-- Length of the chunk placement: one slot per chunk plus the sentinel. -/
theorem placeChunksGo_length (info : List ChunkInformation) :
    ∀ (perm : List Nat) (s a : Nat),
      (placeChunksGo info perm s a).length = perm.length + 1
  | [], _, _ => rfl
  | _ :: rest, s, a => by
    simp [placeChunksGo, placeChunksGo_length info rest]

/-- Head start positions of the placement. -/
theorem placeChunksGo_head (info : List ChunkInformation) (perm : List Nat)
    (s a : Nat) : sampleStartAt (placeChunksGo info perm s a) 0 = a := by
  cases perm <;> rfl

/-- Indexing past the head of the placement. -/
theorem sampleStartAt_cons_succ (c : RandomizedChunk) (l : List RandomizedChunk)
    (i : Nat) : sampleStartAt (c :: l) (i + 1) = sampleStartAt l i := by
  simp [sampleStartAt]

/-- Sample start positions laid down by the placement are non-decreasing. -/
theorem placeChunksGo_sample_succ (info : List ChunkInformation) :
    ∀ (perm : List Nat) (s a i : Nat), i < perm.length →
      sampleStartAt (placeChunksGo info perm s a) i ≤
        sampleStartAt (placeChunksGo info perm s a) (i + 1)
  | [], _, _, i, h => absurd h (by simp)
  | o :: rest, s, a, 0, _ => by
    rw [show placeChunksGo info (o :: rest) s a = _ :: placeChunksGo info rest _ _ from rfl]
    rw [sampleStartAt_cons_succ, placeChunksGo_head]
    exact Nat.le_add_right a _
  | o :: rest, s, a, i + 1, h => by
    rw [show placeChunksGo info (o :: rest) s a = _ :: placeChunksGo info rest _ _ from rfl]
    rw [sampleStartAt_cons_succ, sampleStartAt_cons_succ]
    exact placeChunksGo_sample_succ info rest _ _ i (by simpa using h)

/-- Monotonicity from adjacent steps. -/
theorem mono_of_succ (g : Nat → Nat) (n : Nat)
    (hstep : ∀ i, i < n → g i ≤ g (i + 1)) :
    ∀ i j, i ≤ j → j ≤ n → g i ≤ g j := by
  intro i j
  induction j with
  | zero =>
    intro h1 _
    have : i = 0 := by omega
    rw [this]
  | succ j ih =>
    intro h1 h2
    rcases Nat.lt_or_ge i (j + 1) with hlt | hge
    · exact le_trans (ih (by omega) (by omega)) (hstep j (by omega))
    · have : i = j + 1 := by omega
      rw [this]

/-- Writing windows back does not change the sample start positions. -/
theorem applyWindows_sample :
    ∀ (cs : List RandomizedChunk) (ws : List (Nat × Nat)) (i : Nat),
      sampleStartAt (applyWindows cs ws) i = sampleStartAt cs i
  | _, [], _ => by rw [show ∀ cs, applyWindows cs [] = cs from fun cs => by cases cs <;> rfl]
  | [], _ :: _, _ => rfl
  | c :: cs, w :: ws, 0 => rfl
  | c :: cs, w :: ws, i + 1 => by
    rw [show applyWindows (c :: cs) (w :: ws) = _ :: applyWindows cs ws from rfl]
    rw [sampleStartAt_cons_succ, sampleStartAt_cons_succ]
    exact applyWindows_sample cs ws i

/-- Windows written back are read out unchanged. -/
theorem applyWindows_window :
    ∀ (cs : List RandomizedChunk) (ws : List (Nat × Nat)) (i : Nat),
      i < ws.length → i < cs.length →
      ((applyWindows cs ws).getD i default).windowbegin = (ws.getD i (0, 0)).1 ∧
      ((applyWindows cs ws).getD i default).windowend = (ws.getD i (0, 0)).2
  | _, [], i, h, _ => absurd h (by simp)
  | [], _ :: _, i, _, h => absurd h (by simp)
  | c :: cs, w :: ws, 0, _, _ => ⟨rfl, rfl⟩
  | c :: cs, w :: ws, i + 1, h1, h2 => by
    rw [show applyWindows (c :: cs) (w :: ws) = _ :: applyWindows cs ws from rfl]
    simpa [List.getD_cons_succ] using
      applyWindows_window cs ws i (by simpa using h1) (by simpa using h2)

/-- Length of the window pass output. -/
theorem windowsFrom_length (base : List RandomizedChunk) (n half : Nat) :
    ∀ (k c : Nat) (prev : Nat × Nat), (windowsFrom base n half k c prev).length = k
  | 0, _, _ => rfl
  | k + 1, c, prev => by
    simp [windowsFrom, windowsFrom_length base n half k]

/-- Head of a nonempty window pass. -/
theorem windowsFrom_getD_zero (base : List RandomizedChunk) (n half k c : Nat)
    (prev : Nat × Nat) (hk : 0 < k) :
    (windowsFrom base n half k c prev).getD 0 (0, 0) =
      windowStep base n half c prev := by
  cases k with
  | zero => omega
  | succ k => rfl

/-- One window step never shrinks the previous window bounds. -/
theorem windowStep_ge (base : List RandomizedChunk) (n half c : Nat)
    (prev : Nat × Nat) :
    prev.1 ≤ (windowStep base n half c prev).1 ∧
    prev.2 ≤ (windowStep base n half c prev).2 :=
  ⟨advanceWhile_ge _ _ _, advanceWhile_ge _ _ _⟩

/-- Characterisation of one window step: the computed `windowbegin` is the
least index whose distance to chunk `c` is within `half`, and the computed
`windowend` is the least index at or after the previous one at which the
window stops growing. -/
theorem windowStep_char (base : List RandomizedChunk) (n half c : Nat)
    (prev : Nat × Nat)
    (hmono : ∀ i j, i ≤ j → j ≤ n → sampleStartAt base i ≤ sampleStartAt base j)
    (hc : c ≤ n)
    (hprev1 : ∀ z, z < prev.1 → half < sampleStartAt base c - sampleStartAt base z)
    (hprev1c : prev.1 ≤ c) (hprev2 : prev.2 ≤ n) :
    WBChar base half c (windowStep base n half c prev).1 ∧
    WEChar base n half c prev.2 (windowStep base n half c prev).2 := by
  constructor
  · have hex : ∃ x, sampleStartAt base c - sampleStartAt base x ≤ half :=
      ⟨c, by omega⟩
    have hyp := Nat.find_spec hex
    have hymin : ∀ z, z < Nat.find hex →
        half < sampleStartAt base c - sampleStartAt base z := by
      intro z hz
      have := Nat.find_min hex hz
      omega
    have hyc : Nat.find hex ≤ c := Nat.find_min' hex (by omega)
    have heq : (windowStep base n half c prev).1 = Nat.find hex := by
      apply advanceWhile_eq_of
      · by_contra hlt
        push_neg at hlt
        have := hprev1 (Nat.find hex) hlt
        omega
      · simpa using hyp
      · omega
      · intro z _ hz2
        simpa using hymin z hz2
    rw [heq]
    exact ⟨hyc, hyp, hymin⟩
  · have hex : ∃ x, prev.2 ≤ x ∧
        ((decide (x < n)) &&
          (decide (sampleStartAt base (x + 1) - sampleStartAt base c < half))) = false := by
      refine ⟨max prev.2 n, le_max_left _ _, ?_⟩
      have hnot : ¬(max prev.2 n < n) := by omega
      simp [hnot]
    obtain ⟨hy1, hy2⟩ := Nat.find_spec hex
    have hmax : Nat.find hex ≤ max prev.2 n := by
      apply Nat.find_min' hex
      refine ⟨le_max_left _ _, ?_⟩
      have hnot : ¬(max prev.2 n < n) := by omega
      simp [hnot]
    have hymin : ∀ z, prev.2 ≤ z → z < Nat.find hex →
        z < n ∧ sampleStartAt base (z + 1) - sampleStartAt base c < half := by
      intro z hz1 hz2
      have hnot := Nat.find_min hex hz2
      simp only [not_and, hz1, forall_const, Bool.not_eq_false,
        Bool.and_eq_true, decide_eq_true_eq] at hnot
      exact hnot
    have heq : (windowStep base n half c prev).2 = Nat.find hex := by
      apply advanceWhile_eq_of
      · exact hy1
      · exact hy2
      · omega
      · intro z hz1 hz2
        have := hymin z hz1 hz2
        simp [this.1, this.2]
    rw [heq]
    refine ⟨hy1, by omega, ?_, hymin⟩
    rcases Nat.lt_or_ge (Nat.find hex) n with hlt | hge
    · right
      have ha : decide (Nat.find hex < n) = true := decide_eq_true hlt
      rw [ha, Bool.true_and] at hy2
      have hb := of_decide_eq_false hy2
      omega
    · left
      omega

/-- Characterisation of the whole window pass: each chunk's window satisfies
`WBChar`/`WEChar` (the latter relative to the previous chunk's `windowend`),
and both bounds are non-decreasing from chunk to chunk. -/
theorem windowsFrom_char (base : List RandomizedChunk) (n half : Nat)
    (hmono : ∀ i j, i ≤ j → j ≤ n → sampleStartAt base i ≤ sampleStartAt base j) :
    ∀ (k c : Nat) (prev : Nat × Nat), c + k ≤ n →
      (∀ z, z < prev.1 → half < sampleStartAt base c - sampleStartAt base z) →
      prev.1 ≤ c → prev.2 ≤ n →
      ∀ idx, idx < k →
        WBChar base half (c + idx)
          (((windowsFrom base n half k c prev).getD idx (0, 0)).1) ∧
        WEChar base n half (c + idx)
          (if idx = 0 then prev.2
            else ((windowsFrom base n half k c prev).getD (idx - 1) (0, 0)).2)
          (((windowsFrom base n half k c prev).getD idx (0, 0)).2) ∧
        (idx + 1 < k →
          ((windowsFrom base n half k c prev).getD idx (0, 0)).1 ≤
            ((windowsFrom base n half k c prev).getD (idx + 1) (0, 0)).1 ∧
          ((windowsFrom base n half k c prev).getD idx (0, 0)).2 ≤
            ((windowsFrom base n half k c prev).getD (idx + 1) (0, 0)).2) := by
  intro k
  induction k with
  | zero =>
    intro c prev _ _ _ _ idx hidx
    omega
  | succ k ih =>
    intro c prev hck hprev1 hprev1c hprev2 idx hidx
    have hcn : c ≤ n := by omega
    have hstep := windowStep_char base n half c prev hmono hcn hprev1 hprev1c hprev2
    have hL : windowsFrom base n half (k + 1) c prev =
        windowStep base n half c prev ::
          windowsFrom base n half k (c + 1) (windowStep base n half c prev) := rfl
    have hwb := hstep.1
    have hwe := hstep.2
    have hprev1' : ∀ z, z < (windowStep base n half c prev).1 →
        half < sampleStartAt base (c + 1) - sampleStartAt base z := by
      intro z hz
      have h1 := hwb.2.2 z hz
      have h2 : sampleStartAt base c ≤ sampleStartAt base (c + 1) :=
        hmono c (c + 1) (by omega) (by omega)
      omega
    have hprev1c' : (windowStep base n half c prev).1 ≤ c + 1 := by
      have := hwb.1
      omega
    have hprev2' : (windowStep base n half c prev).2 ≤ n := hwe.2.1
    cases idx with
    | zero =>
      rw [hL]
      refine ⟨by simpa using hwb, by simpa using hwe, ?_⟩
      intro h1k
      have hk0 : 0 < k := by omega
      have hhead := windowsFrom_getD_zero base n half k (c + 1)
        (windowStep base n half c prev) hk0
      simp only [List.getD_cons_zero, List.getD_cons_succ, hhead]
      exact windowStep_ge base n half (c + 1) (windowStep base n half c prev)
    | succ j =>
      have hj : j < k := by omega
      have hIH := ih (c + 1) (windowStep base n half c prev) (by omega)
        hprev1' hprev1c' hprev2' j hj
      rw [hL]
      have hcc : c + (j + 1) = (c + 1) + j := by omega
      refine ⟨?_, ?_, ?_⟩
      · rw [List.getD_cons_succ, hcc]
        exact hIH.1
      · rw [List.getD_cons_succ, hcc]
        have hne : j + 1 ≠ 0 := Nat.succ_ne_zero j
        rw [if_neg hne]
        cases j with
        | zero => simpa using hIH.2.1
        | succ j' => simpa [List.getD_cons_succ] using hIH.2.1
      · intro hnext
        rw [List.getD_cons_succ, List.getD_cons_succ]
        exact hIH.2.2 (by omega)

/-! ## Randomized-timeline locality (C1) -/

/-- C1: whenever `BlockRandomizer::Randomize` completes — the chunk shuffle,
the in-window sequence shuffle, and the final verification pass all succeed —
every position `i` of the randomized timeline satisfies
`IsValidForPosition(i, m_randomTimeline[i])`: the (rewritten) chunk id of the
sequence stored at `i` lies in `[windowbegin(chunkOf(i)), windowend(chunkOf(i)))`
where `chunkOf(i) = m_sequencePositionToChunkIndex[i]`. -/
theorem Randomize_locality (f : Nat → Nat → Nat) (br : BR0)
    (sweep sweepStart rFuel : Nat) (chunks : List RandomizedChunk)
    (posToChunk : List Nat) (tl : List SequenceDescription) (r' : RngState)
    (h : Randomize f br sweep sweepStart rFuel = some (chunks, posToChunk, tl, r')) :
    ∀ i < tl.length,
      IsValidForPosition chunks posToChunk i (tl.getD i default) = true := by
  intro i hi
  unfold Randomize at h
  split at h
  · cases h
  · dsimp only at h
    split at h
    · cases h
    · split at h
      next hall =>
        simp only [Option.some.injEq, Prod.mk.injEq] at h
        obtain ⟨rfl, rfl, rfl, rfl⟩ := h
        exact List.all_eq_true.mp hall i (List.mem_range.mpr hi)
      next hfalse => cases h

/-- C1 witness: on the singleton timeline with the all-zero PRNG behaviour,
`Randomize` completes and the (unique) position satisfies its window. -/
theorem Randomize_locality_witness :
    IsValidForPosition rzW1.1 rzW1.2.1 0 (rzW1.2.2.1.getD 0 default) = true := by
  have h : Randomize fZero brW1 0 0 1 =
      some (rzW1.1, rzW1.2.1, rzW1.2.2.1, rzW1.2.2.2) := by decide
  exact Randomize_locality fZero brW1 0 0 1 rzW1.1 rzW1.2.1 rzW1.2.2.1 rzW1.2.2.2 h
    0 (by decide)

/-- C2 counterexample: two chunks of 10 samples each, `W = 30` (`W/2 = 15`).
`RandomizeChunks` computes `windowend(0) = 1`, but index 1 does not satisfy
`sampleStart(1 + 1) − sampleStart(0) < 15` (the distance is 20), while index 0
does (distance 10); hence the computed `windowend(0)` is NOT "the largest
index such that `sampleStart(windowend+1) − sampleStart(c) < W/2`" (which is
0) — the code's value is one past that index. -/
theorem RandomizeChunks_windowend_counterexample :
    (RandomizeChunks fZero brC2 0 0).isSome = true ∧
    (rcC2.1.getD 0 default).windowend = 1 ∧
    ¬(sampleStartAt rcC2.1 (1 + 1) - sampleStartAt rcC2.1 0 <
      brC2.randomizationRangeInSamples / 2) ∧
    (sampleStartAt rcC2.1 (0 + 1) - sampleStartAt rcC2.1 0 <
      brC2.randomizationRangeInSamples / 2) := by
  refine ⟨by decide, by decide, by decide, by decide⟩

/-- C2 (amended): for every chunk `c` of a successful `RandomizeChunks` run,
`windowbegin(c)` is the smallest index (≤ c) with
`sampleStart(c) − sampleStart(windowbegin) ≤ ⌊W/2⌋` — as claimed — while
`windowend(c)` is the smallest index at or after the previous chunk's
`windowend` (1 for chunk 0) at which the window stops growing, i.e. either
`numChunks` or an index `x` with `sampleStart(x+1) − sampleStart(c) ≥ ⌊W/2⌋`
(one more than the claimed "largest index" when that exists); both bounds are
monotonically non-decreasing in `c`. -/
theorem RandomizeChunks_windows (f : Nat → Nat → Nat) (br : BR0)
    (sweep sweepStart : Nat) (chunks : List RandomizedChunk)
    (posToChunk : List Nat) (r' : RngState)
    (h : RandomizeChunks f br sweep sweepStart = some (chunks, posToChunk, r')) :
    ∀ c, c < br.numChunks →
      WBChar chunks (br.randomizationRangeInSamples / 2) c
        ((chunks.getD c default).windowbegin) ∧
      WEChar chunks br.numChunks (br.randomizationRangeInSamples / 2) c
        (if c = 0 then 1 else (chunks.getD (c - 1) default).windowend)
        ((chunks.getD c default).windowend) ∧
      (c + 1 < br.numChunks →
        (chunks.getD c default).windowbegin ≤
          (chunks.getD (c + 1) default).windowbegin ∧
        (chunks.getD c default).windowend ≤
          (chunks.getD (c + 1) default).windowend) := by
  intro c hc
  unfold RandomizeChunks at h
  split at h
  · cases h
  next perm r0 hshuf =>
    dsimp only at h
    simp only [Option.some.injEq, Prod.mk.injEq] at h
    obtain ⟨hchunks, hpos, hr⟩ := h
    have hpermlen : perm.length = br.numChunks := by
      have := randomShuffle_length f (List.range br.numChunks) sweep (perm, r0) hshuf
      simpa using this
    have hmono : ∀ i j, i ≤ j → j ≤ br.numChunks →
        sampleStartAt (placeChunksGo br.chunkInformation perm 0 sweepStart) i ≤
        sampleStartAt (placeChunksGo br.chunkInformation perm 0 sweepStart) j := by
      apply mono_of_succ
      intro i hi
      exact placeChunksGo_sample_succ br.chunkInformation perm 0 sweepStart i
        (by omega)
    have hwslen :
        (windowsFrom (placeChunksGo br.chunkInformation perm 0 sweepStart)
          br.numChunks (br.randomizationRangeInSamples / 2) br.numChunks 0
          (0, 1)).length = br.numChunks :=
      windowsFrom_length _ _ _ _ _ _
    have hbaselen :
        (placeChunksGo br.chunkInformation perm 0 sweepStart).length =
          br.numChunks + 1 := by
      rw [placeChunksGo_length, hpermlen]
    have hchar := windowsFrom_char
      (placeChunksGo br.chunkInformation perm 0 sweepStart) br.numChunks
      (br.randomizationRangeInSamples / 2) hmono br.numChunks 0 (0, 1)
      (by omega) (by intro z hz; exact absurd hz (Nat.not_lt_zero z))
      (Nat.le_refl 0) (by omega)
    have hsame : ∀ i, sampleStartAt chunks i =
        sampleStartAt (placeChunksGo br.chunkInformation perm 0 sweepStart) i := by
      intro i
      rw [← hchunks]
      exact applyWindows_sample _ _ i
    have hwindow : ∀ i, i < br.numChunks →
        (chunks.getD i default).windowbegin =
          ((windowsFrom (placeChunksGo br.chunkInformation perm 0 sweepStart)
            br.numChunks (br.randomizationRangeInSamples / 2) br.numChunks 0
            (0, 1)).getD i (0, 0)).1 ∧
        (chunks.getD i default).windowend =
          ((windowsFrom (placeChunksGo br.chunkInformation perm 0 sweepStart)
            br.numChunks (br.randomizationRangeInSamples / 2) br.numChunks 0
            (0, 1)).getD i (0, 0)).2 := by
      intro i hi
      rw [← hchunks]
      exact applyWindows_window _ _ i (by omega) (by omega)
    have hcharc := hchar c hc
    simp only [Nat.zero_add] at hcharc
    refine ⟨?_, ?_, ?_⟩
    · rw [(hwindow c hc).1]
      have hp := hcharc.1
      simp only [WBChar] at hp ⊢
      simp only [hsame]
      exact hp
    · rw [(hwindow c hc).2]
      have hp := hcharc.2.1
      simp only [WEChar] at hp ⊢
      simp only [hsame]
      rcases Nat.eq_zero_or_pos c with hc0 | hcpos
      · subst hc0
        simpa using hp
      · rw [if_neg (by omega), (hwindow (c - 1) (by omega)).2]
        rw [if_neg (by omega)] at hp
        exact hp
    · intro hnext
      rw [(hwindow c hc).1, (hwindow c hc).2, (hwindow (c + 1) hnext).1,
        (hwindow (c + 1) hnext).2]
      exact hcharc.2.2 (by omega)

/-- C2 witness: on the two-chunk corpus `brC2` the amended characterisation
applies; its consequences for chunk 0 evaluate as expected. -/
theorem RandomizeChunks_windows_witness :
    (rcC2.1.getD 0 default).windowbegin ≤ 0 ∧
    (rcC2.1.getD 0 default).windowend ≤ brC2.numChunks := by
  have h : RandomizeChunks fZero brC2 0 0 = some (rcC2.1, rcC2.2.1, rcC2.2.2) := by
    decide
  have hw := RandomizeChunks_windows fZero brC2 0 0 rcC2.1 rcC2.2.1 rcC2.2.2 h
    0 (by decide)
  exact ⟨hw.1.1, hw.2.1.2.1⟩

/-! ## Chunk lifecycle (C4) -/

/-- Reading a mapped range at an in-bounds index. -/
theorem range_map_getD {α : Type} (n k : Nat) (g : Nat → α) (d : α)
    (hk : k < n) : ((List.range n).map g).getD k d = g k := by
  rw [List.getD_eq_getElem?_getD, List.getElem?_map, List.getElem?_range hk]
  rfl

/-- C4: on a `GetNextSequences` call that selected a nonempty batch, the
chunk-lifecycle loop issues, for every randomized chunk index `k` below
`numChunks`, a `RequireChunk` on `k`'s original chunk index exactly when
`windowbegin(chunkOf(firstId)) ≤ k < windowend(chunkOf(lastId))`, and a
`ReleaseChunk` on it otherwise. -/
theorem GetNextSequences_chunk_lifecycle (f : Nat → Nat → Nat)
    (rFuel aFuel count : Nat) (st : BRState) (res : GNSResult) (st1 : BRState)
    (h : GetNextSequences f rFuel aFuel count st = some (res, st1))
    (hne : res.items ≠ []) :
    ∀ k, k < st1.br.numChunks →
      (res.chunkEvents.getD k (ChunkEvent.release 0) =
          ChunkEvent.require
            ((st1.randomizedChunks.getD k default).originalChunkIndex) ↔
        (gnsWindowBegin st1 (res.items.map (fun it => it.2.1)) ≤ k ∧
          k < gnsWindowEnd st1 (res.items.map (fun it => it.2.1)))) ∧
      (res.chunkEvents.getD k (ChunkEvent.release 0) =
          ChunkEvent.release
            ((st1.randomizedChunks.getD k default).originalChunkIndex) ↔
        ¬(gnsWindowBegin st1 (res.items.map (fun it => it.2.1)) ≤ k ∧
          k < gnsWindowEnd st1 (res.items.map (fun it => it.2.1)))) := by
  intro k hk
  unfold GetNextSequences at h
  split at h
  · cases h
  next items eoe st1' hloop =>
    split at h
    next hempty =>
      simp only [Option.some.injEq, Prod.mk.injEq] at h
      obtain ⟨rfl, rfl⟩ := h
      exact absurd rfl hne
    next hnotempty =>
      dsimp only at h
      simp only [Option.some.injEq, Prod.mk.injEq] at h
      obtain ⟨rfl, rfl⟩ := h
      dsimp only at hk ⊢
      unfold chunkEventsFor
      rw [range_map_getD st1'.br.numChunks k _ _ hk]
      by_cases hcond : gnsWindowBegin st1' (items.map (fun it => it.2.1)) ≤ k ∧
          k < gnsWindowEnd st1' (items.map (fun it => it.2.1))
      · rw [if_pos hcond]
        simp [hcond]
      · rw [if_neg hcond]
        simp [hcond]

/-- C4 witness: on the two-sequence epoch over `brC3`, the single call batch
is nonempty and chunk 0 is required (it lies in the union window). -/
theorem GetNextSequences_chunk_lifecycle_witness :
    gnsC4.1.chunkEvents.getD 0 (ChunkEvent.release 0) =
      ChunkEvent.require
        ((gnsC4.2.randomizedChunks.getD 0 default).originalChunkIndex) := by
  have h : GetNextSequences fZero 9 9 2 stC3 = some (gnsC4.1, gnsC4.2) := by
    decide
  have hw := GetNextSequences_chunk_lifecycle fZero 9 9 2 stC3 gnsC4.1 gnsC4.2 h
    (by decide) 0 (by decide)
  exact hw.1.mpr (by decide)

/-! ## Distributed worker partition (C3)

The proof relates each worker's run to the worker-independent `visitTrace`:
advancing and yielding only read the worker identity to decide skip-vs-take,
and both paths update the cursors identically, so every worker walks the same
positions and takes exactly those whose randomized chunk id matches its
rank. -/

/-- The sweep check does not touch the worker identity, the budget fields or
the constructed randomizer. -/
theorem sweepCheck_fields (f : Nat → Nat → Nat) (rFuel : Nat) (st st1 : BRState)
    (h : RandomizeIfNewSweepIsEntered f rFuel st = some st1) :
    st1.workerRank = st.workerRank ∧ st1.numberOfWorkers = st.numberOfWorkers ∧
    st1.epochSize = st.epochSize ∧ st1.br = st.br ∧
    st1.samplePositionInEpoch = st.samplePositionInEpoch := by
  unfold RandomizeIfNewSweepIsEntered at h
  split at h
  · split at h
    · cases h
    · simp only [Option.some.injEq] at h
      subst h
      exact ⟨rfl, rfl, rfl, rfl, rfl⟩
  · simp only [Option.some.injEq] at h
    subst h
    exact ⟨rfl, rfl, rfl, rfl, rfl⟩

/-- Cursor bumps do not touch the worker identity or the epoch size. -/
theorem bumpPosition_fields (st : BRState) (d : SequenceDescription) :
    (bumpPosition st d).workerRank = st.workerRank ∧
    (bumpPosition st d).numberOfWorkers = st.numberOfWorkers ∧
    (bumpPosition st d).epochSize = st.epochSize ∧
    (bumpPosition st d).br = st.br :=
  ⟨rfl, rfl, rfl, rfl⟩

/-- A successful visit trace stays successful with more fuel. -/
theorem visitTrace_mono (f : Nat → Nat → Nat) (rFuel : Nat) :
    ∀ (fuel fuel2 : Nat) (st : BRState) (T : List Item),
      fuel ≤ fuel2 → visitTrace f rFuel fuel st = some T →
      visitTrace f rFuel fuel2 st = some T := by
  intro fuel
  induction fuel with
  | zero =>
    intro fuel2 st T _ h
    unfold visitTrace at h
    split at h
    next hb =>
      simp only [Option.some.injEq] at h
      subst h
      cases fuel2 <;> · unfold visitTrace; rw [if_pos hb]
    next hb => cases h
  | succ fuel ih =>
    intro fuel2 st T hle h
    unfold visitTrace at h
    split at h
    next hb =>
      simp only [Option.some.injEq] at h
      subst h
      cases fuel2 with
      | zero => omega
      | succ f2 => unfold visitTrace; rw [if_pos hb]
    next hb =>
      obtain ⟨f2, rfl⟩ : ∃ f2, fuel2 = f2 + 1 := ⟨fuel2 - 1, by omega⟩
      split at h
      · cases h
      next st1 hsc =>
        dsimp only at h
        split at h
        · cases h
        next rest htail =>
          simp only [Option.some.injEq] at h
          subst h
          unfold visitTrace
          rw [if_neg hb, hsc]
          dsimp only
          rw [ih f2 _ _ (by omega) htail]

/-- Projection facts about `withWorker`. -/
theorem withWorker_epochSize (st : BRState) (r N : Nat) :
    (withWorker st r N).epochSize = st.epochSize := rfl

/-- Projection: the budget cursor is untouched by `withWorker`. -/
theorem withWorker_samplePos (st : BRState) (r N : Nat) :
    (withWorker st r N).samplePositionInEpoch = st.samplePositionInEpoch := rfl

/-- Projection: the sweep timeline is untouched by `withWorker`. -/
theorem withWorker_randomTimeline (st : BRState) (r N : Nat) :
    (withWorker st r N).randomTimeline = st.randomTimeline := rfl

/-- Projection: the sweep cursor is untouched by `withWorker`. -/
theorem withWorker_seqPos (st : BRState) (r N : Nat) :
    (withWorker st r N).sequencePositionInSweep = st.sequencePositionInSweep := rfl

/-- Projection: the sweep index is untouched by `withWorker`. -/
theorem withWorker_sweep (st : BRState) (r N : Nat) :
    (withWorker st r N).sweep = st.sweep := rfl

/-- The sweep check commutes with replacing the worker identity. -/
theorem sweepCheck_withWorker (f : Nat → Nat → Nat) (rFuel : Nat)
    (st : BRState) (r N : Nat) :
    RandomizeIfNewSweepIsEntered f rFuel (withWorker st r N) =
      (RandomizeIfNewSweepIsEntered f rFuel st).map (fun s => withWorker s r N) := by
  unfold RandomizeIfNewSweepIsEntered withWorker
  dsimp only
  by_cases hc : st.br.numSequences ≤ st.sequencePositionInSweep
  · rw [if_pos hc, if_pos hc]
    cases hR : Randomize f st.br (st.sweep + 1)
        (st.sweepStartInSamples + st.br.numSamples) rFuel with
    | none => rfl
    | some v =>
      obtain ⟨chunks, posToChunk, tl, rr⟩ := v
      rfl
  · rw [if_neg hc, if_neg hc]
    rfl

/-- Cursor bumps commute with replacing the worker identity. -/
theorem bumpPosition_withWorker (st : BRState) (r N : Nat)
    (d : SequenceDescription) :
    bumpPosition (withWorker st r N) d = withWorker (bumpPosition st d) r N := rfl

/-- The reference traversal never reads the worker identity. -/
theorem visitTrace_withWorker (f : Nat → Nat → Nat) (rFuel : Nat) :
    ∀ (fuel : Nat) (st : BRState) (r N : Nat),
      visitTrace f rFuel fuel (withWorker st r N) = visitTrace f rFuel fuel st := by
  intro fuel
  induction fuel with
  | zero => intro st r N; rfl
  | succ fuel ih =>
    intro st r N
    unfold visitTrace
    simp only [withWorker_epochSize, withWorker_samplePos]
    by_cases hb : st.epochSize ≤ st.samplePositionInEpoch
    · rw [if_pos hb, if_pos hb]
    · rw [if_neg hb, if_neg hb, sweepCheck_withWorker]
      cases hR : RandomizeIfNewSweepIsEntered f rFuel st with
      | none => rfl
      | some st1 =>
        dsimp only [Option.map]
        simp only [withWorker_randomTimeline, withWorker_seqPos, withWorker_sweep,
          bumpPosition_withWorker, ih]

/-- Repositioning commutes with replacing the worker identity. -/
theorem rfgsp_withWorker (f : Nat → Nat → Nat) (rFuel : Nat) (st : BRState)
    (r N pos : Nat) :
    RandomizeForGlobalSamplePosition f rFuel (withWorker st r N) pos =
      (RandomizeForGlobalSamplePosition f rFuel st pos).map
        (fun s => withWorker s r N) := by
  unfold RandomizeForGlobalSamplePosition withWorker
  dsimp only
  by_cases hc : st.sweep ≠ pos / st.br.numSamples
  · rw [if_pos hc, if_pos hc]
    cases hR : Randomize f st.br (pos / st.br.numSamples)
        (pos / st.br.numSamples * st.br.numSamples) rFuel with
    | none => rfl
    | some v =>
      obtain ⟨chunks, posToChunk, tl, rr⟩ := v
      rfl
  · rw [if_neg hc, if_neg hc]
    rfl

/-- Repositioning does not touch the worker identity, the budget fields or
the constructed randomizer. -/
theorem rfgsp_fields (f : Nat → Nat → Nat) (rFuel : Nat) (st : BRState)
    (pos : Nat) (st1 : BRState)
    (h : RandomizeForGlobalSamplePosition f rFuel st pos = some st1) :
    st1.workerRank = st.workerRank ∧ st1.numberOfWorkers = st.numberOfWorkers ∧
    st1.epochSize = st.epochSize ∧ st1.br = st.br ∧
    st1.samplePositionInEpoch = st.samplePositionInEpoch := by
  unfold RandomizeForGlobalSamplePosition at h
  dsimp only at h
  split at h
  · split at h
    · cases h
    · simp only [Option.some.injEq] at h
      subst h
      exact ⟨rfl, rfl, rfl, rfl, rfl⟩
  · simp only [Option.some.injEq] at h
    subst h
    exact ⟨rfl, rfl, rfl, rfl, rfl⟩

/-- Starting an epoch for worker `(r, N)` produces exactly the single-worker
start state with the worker identity replaced. -/
theorem StartEpoch_withWorker (f : Nat → Nat → Nat) (rFuel : Nat) (br : BR0)
    (index totalSize r N : Nat) :
    StartEpoch f rFuel br ⟨index, totalSize, r, N⟩ =
      (StartEpoch f rFuel br ⟨index, totalSize, 0, 1⟩).map
        (fun s => withWorker s r N) := by
  unfold StartEpoch
  dsimp only
  split
  · split
    · exact rfgsp_withWorker f rFuel
        { (initialState br) with
          workerRank := 0,
          numberOfWorkers := 1,
          epochSize := br.numSamples,
          samplePositionInEpoch := 0 } r N (br.numSamples * index % 2 ^ 64)
    · rfl
  · split
    · exact rfgsp_withWorker f rFuel
        { (initialState br) with
          workerRank := 0,
          numberOfWorkers := 1,
          epochSize := totalSize,
          samplePositionInEpoch := 0 } r N (totalSize * index % 2 ^ 64)
    · rfl

/-- Decomposition of a list whose filter is nonempty at its first match. -/
theorem exists_first_match (P : Item → Bool) :
    ∀ (T : List Item), T.filter P ≠ [] →
      ∃ skip m rest, T = skip ++ m :: rest ∧ (∀ it ∈ skip, P it = false) ∧
        P m = true ∧ T.filter P = m :: rest.filter P
  | [], h => absurd rfl h
  | it :: T', h => by
    by_cases hit : P it = true
    · exact ⟨[], it, T', rfl, by simp, hit, by simp [List.filter_cons, hit]⟩
    · have hfil : (it :: T').filter P = T'.filter P := by
        simp [List.filter_cons, hit]
      rw [hfil] at h
      obtain ⟨skip, m, rest, heq, hskip, hm, hfil2⟩ := exists_first_match P T' h
      refine ⟨it :: skip, m, rest, by rw [heq]; rfl, ?_, hm, ?_⟩
      · intro x hx
        rcases List.mem_cons.mp hx with rfl | hx'
        · simp only [Bool.not_eq_true] at hit
          exact hit
        · exact hskip x hx'
      · rw [hfil, hfil2]

/-- Simulation of `AdvanceToNextPositionForThisWorker` against the reference
traversal: if the trace has no sequence for this worker, the advance reports
end of epoch; otherwise it stops, with unchanged budget, exactly at the first
trace item belonging to this worker, and the remaining trace continues from
the bumped state. -/
theorem advance_of_trace (f : Nat → Nat → Nat) (rFuel r N : Nat) :
    ∀ (fuel : Nat) (st : BRState) (T : List Item),
      st.workerRank = r → st.numberOfWorkers = N →
      visitTrace f rFuel fuel st = some T →
      ((∀ it ∈ T, belongsTo N r it = false) →
        ∃ st1, AdvanceToNextPositionForThisWorker f rFuel fuel st = some (true, st1)) ∧
      (∀ (skip : List Item) (m : Item) (rest : List Item),
        T = skip ++ m :: rest →
        (∀ it ∈ skip, belongsTo N r it = false) →
        belongsTo N r m = true →
        ∃ st1,
          AdvanceToNextPositionForThisWorker f rFuel fuel st = some (false, st1) ∧
          st1.workerRank = r ∧ st1.numberOfWorkers = N ∧
          st1.epochSize = st.epochSize ∧ st1.br = st.br ∧
          st1.sweep = m.1 ∧ st1.sequencePositionInSweep = m.2.1 ∧
          st1.randomTimeline.getD st1.sequencePositionInSweep default = m.2.2 ∧
          visitTrace f rFuel fuel (bumpPosition st1 m.2.2) = some rest) := by
  intro fuel
  induction fuel with
  | zero =>
    intro st T hr hN htr
    unfold visitTrace at htr
    split at htr
    next hb =>
      simp only [Option.some.injEq] at htr
      subst htr
      constructor
      · intro _
        refine ⟨st, ?_⟩
        unfold AdvanceToNextPositionForThisWorker
        rw [if_neg (by omega)]
      · intro skip m rest heq _ _
        exact absurd heq (by simp)
    next => cases htr
  | succ fuel ih =>
    intro st T hr hN htr
    unfold visitTrace at htr
    split at htr
    next hb =>
      simp only [Option.some.injEq] at htr
      subst htr
      constructor
      · intro _
        refine ⟨st, ?_⟩
        unfold AdvanceToNextPositionForThisWorker
        rw [if_neg (by omega)]
      · intro skip m rest heq _ _
        exact absurd heq (by simp)
    next hb =>
      split at htr
      · cases htr
      next st1 hsc =>
        dsimp only at htr
        split at htr
        · cases htr
        next rest0 htail =>
          simp only [Option.some.injEq] at htr
          subst htr
          obtain ⟨hw1, hw2, hw3, hw4, hw5⟩ := sweepCheck_fields f rFuel st st1 hsc
          have hcond :
              ((st1.randomTimeline.getD st1.sequencePositionInSweep default).chunkId %
                st1.numberOfWorkers = st1.workerRank) ↔
              ((st1.randomTimeline.getD st1.sequencePositionInSweep default).chunkId %
                N = r) := by
            rw [hw1, hr, hw2, hN]
          by_cases hmatch :
              (st1.randomTimeline.getD st1.sequencePositionInSweep default).chunkId %
                N = r
          · have hadv : AdvanceToNextPositionForThisWorker f rFuel (fuel + 1) st =
                some (false, st1) := by
              unfold AdvanceToNextPositionForThisWorker
              rw [if_pos (by omega), hsc]
              dsimp only
              rw [if_pos (hcond.mpr hmatch)]
            constructor
            · intro hall
              have hx := hall (st1.sweep, st1.sequencePositionInSweep,
                st1.randomTimeline.getD st1.sequencePositionInSweep default)
                (List.mem_cons_self _ _)
              exact absurd hmatch (of_decide_eq_false hx)
            · intro skip m rest heq hskip hm
              cases skip with
              | nil =>
                simp only [List.nil_append, List.cons.injEq] at heq
                obtain ⟨rfl, rfl⟩ := heq
                refine ⟨st1, hadv, hw1.trans hr, hw2.trans hN, hw3, hw4,
                  rfl, rfl, rfl, ?_⟩
                exact visitTrace_mono f rFuel fuel (fuel + 1) _ _ (by omega) htail
              | cons it skip' =>
                simp only [List.cons_append, List.cons.injEq] at heq
                obtain ⟨hit, heq'⟩ := heq
                have hx := hskip it (List.mem_cons_self _ _)
                rw [← hit] at hx
                exact absurd hmatch (of_decide_eq_false hx)
          · have hstep : AdvanceToNextPositionForThisWorker f rFuel (fuel + 1) st =
                AdvanceToNextPositionForThisWorker f rFuel fuel
                  (bumpPosition st1
                    (st1.randomTimeline.getD st1.sequencePositionInSweep default)) := by
              unfold AdvanceToNextPositionForThisWorker
              rw [if_pos (by omega), hsc]
              dsimp only
              rw [if_neg (fun hx => hmatch (hcond.mp hx))]
              exact AdvanceToNextPositionForThisWorker.eq_def f rFuel fuel _
            have hIH := ih (bumpPosition st1
                (st1.randomTimeline.getD st1.sequencePositionInSweep default)) rest0
              (hw1.trans hr) (hw2.trans hN) htail
            constructor
            · intro hall
              obtain ⟨st2, h2⟩ := hIH.1 (fun it hit => hall it (List.mem_cons_of_mem _ hit))
              exact ⟨st2, by rw [hstep]; exact h2⟩
            · intro skip m rest heq hskip hm
              cases skip with
              | nil =>
                simp only [List.nil_append, List.cons.injEq] at heq
                obtain ⟨rfl, _⟩ := heq
                exact absurd (of_decide_eq_true hm) hmatch
              | cons it skip' =>
                simp only [List.cons_append, List.cons.injEq] at heq
                obtain ⟨hit, heq'⟩ := heq
                obtain ⟨st2, h2, hf1, hf2, hf3, hf4, hm1, hm2, hm3, htr2⟩ :=
                  hIH.2 skip' m rest heq'
                    (fun x hx => hskip x (List.mem_cons_of_mem _ hx)) hm
                refine ⟨st2, by rw [hstep]; exact h2, hf1, hf2, hf3.trans hw3,
                  hf4.trans hw4, hm1, hm2, hm3, ?_⟩
                exact visitTrace_mono f rFuel fuel (fuel + 1) _ _ (by omega) htr2

/-- Simulation of the id-collection loop against the reference traversal: it
yields the first `count` items of the trace that belong to this worker, flags
end of epoch exactly when fewer than `count` remain, and (when the epoch goes
on) leaves a state whose remaining trace holds the not-yet-yielded items of
this worker. -/
theorem gnsLoop_of_trace (f : Nat → Nat → Nat) (rFuel r N : Nat) :
    ∀ (count fuel : Nat) (st : BRState) (T : List Item),
      st.workerRank = r → st.numberOfWorkers = N →
      visitTrace f rFuel fuel st = some T →
      ∃ st2,
        gnsLoop f rFuel fuel count st =
          some ((T.filter (belongsTo N r)).take count,
            decide ((T.filter (belongsTo N r)).length < count), st2) ∧
        (count ≤ (T.filter (belongsTo N r)).length →
          st2.workerRank = r ∧ st2.numberOfWorkers = N ∧
          st2.epochSize = st.epochSize ∧ st2.br = st.br ∧
          ∃ T2, visitTrace f rFuel fuel st2 = some T2 ∧
            T2.filter (belongsTo N r) = (T.filter (belongsTo N r)).drop count) := by
  intro count
  induction count with
  | zero =>
    intro fuel st T hr hN htr
    refine ⟨st, by simp [gnsLoop], ?_⟩
    intro _
    exact ⟨hr, hN, rfl, rfl, T, htr, by simp⟩
  | succ count ih =>
    intro fuel st T hr hN htr
    have hadv := advance_of_trace f rFuel r N fuel st T hr hN htr
    by_cases hF : T.filter (belongsTo N r) = []
    · obtain ⟨st1, h1⟩ := hadv.1 (by
        intro it hit
        have := List.filter_eq_nil_iff.mp hF it hit
        simpa using this)
      refine ⟨st1, ?_, ?_⟩
      · unfold gnsLoop
        rw [h1]
        simp [hF]
      · intro hcount
        rw [hF] at hcount
        simp at hcount
    · obtain ⟨skip, m, rest, heqT, hskip, hm, hfil⟩ :=
        exists_first_match (belongsTo N r) T hF
      obtain ⟨st1, h1, hf1, hf2, hf3, hf4, hsw, hpos, hdesc, htr1⟩ :=
        hadv.2 skip m rest heqT hskip hm
      obtain ⟨st2, h2, h2cond⟩ := ih fuel (bumpPosition st1 m.2.2) rest hf1 hf2 htr1
      refine ⟨st2, ?_, ?_⟩
      · unfold gnsLoop
        rw [h1]
        dsimp only
        rw [hdesc, h2, hsw, hpos]
        rw [hfil]
        simp [Nat.succ_lt_succ_iff]
      · intro hcount
        have hc2 : count ≤ (rest.filter (belongsTo N r)).length := by
          rw [hfil] at hcount
          simp at hcount
          omega
        obtain ⟨g1, g2, g3, g4, T2, gtr, gfil⟩ := h2cond hc2
        refine ⟨g1, g2, g3.trans hf3, g4.trans hf4, T2, gtr, ?_⟩
        rw [gfil, hfil]
        simp

/-- A `GetNextSequences` call returns the items and flag of its collection
loop (the require/release part does not change them). -/
theorem GNS_of_gnsLoop (f : Nat → Nat → Nat) (rFuel aFuel count : Nat)
    (st : BRState) (items : List Item) (eoe : Bool) (st1 : BRState)
    (h : gnsLoop f rFuel aFuel count st = some (items, eoe, st1)) :
    ∃ res, GetNextSequences f rFuel aFuel count st = some (res, st1) ∧
      res.items = items ∧ res.endOfEpoch = eoe := by
  unfold GetNextSequences
  rw [h]
  dsimp only
  cases items with
  | nil =>
    refine ⟨⟨[], eoe, [], []⟩, ?_, rfl, rfl⟩
    rw [if_pos (by rfl)]
  | cons it its =>
    refine ⟨{ items := it :: its, endOfEpoch := eoe,
              chunkEvents := chunkEventsFor st1
                (gnsWindowBegin st1 ((it :: its).map (fun x => x.2.1)))
                (gnsWindowEnd st1 ((it :: its).map (fun x => x.2.1))),
              originalIds := ((it :: its).map (fun x => x.2.1)).map
                (fun id => (st1.randomTimeline.getD id default).id) }, ?_, rfl, rfl⟩
    rw [if_neg (by simp)]

/-- A full worker epoch run equals the worker's filter of the reference
trace, independently of the minibatch size used to drain it. -/
theorem runEpoch_of_trace (f : Nat → Nat → Nat) (rFuel r N count : Nat)
    (hcount : 0 < count) :
    ∀ (calls fuel : Nat) (st : BRState) (T : List Item),
      st.workerRank = r → st.numberOfWorkers = N →
      visitTrace f rFuel fuel st = some T →
      (T.filter (belongsTo N r)).length < calls →
      runEpoch f rFuel fuel count calls st = some (T.filter (belongsTo N r)) := by
  intro calls
  induction calls with
  | zero =>
    intro fuel st T _ _ _ h
    omega
  | succ calls ih =>
    intro fuel st T hr hN htr hlen
    obtain ⟨st2, hg, hgcond⟩ := gnsLoop_of_trace f rFuel r N count fuel st T hr hN htr
    obtain ⟨res, hGNS, hri, hre⟩ := GNS_of_gnsLoop f rFuel fuel count st _ _ _ hg
    unfold runEpoch
    rw [hGNS]
    dsimp only
    by_cases hend : (T.filter (belongsTo N r)).length < count
    · have hb : res.endOfEpoch = true := by
        rw [hre]
        exact decide_eq_true hend
      rw [if_pos hb, hri]
      rw [List.take_of_length_le (le_of_lt hend)]
    · have hb : res.endOfEpoch = false := by
        rw [hre]
        exact decide_eq_false hend
      rw [hb]
      rw [if_neg (by simp)]
      have hend' : count ≤ (T.filter (belongsTo N r)).length := by omega
      obtain ⟨w1, w2, w3, w4, T2, htr2, hfil2⟩ := hgcond hend'
      rw [ih fuel st2 T2 w1 w2 htr2 (by
        rw [hfil2]
        simp only [List.length_drop]
        omega)]
      dsimp only
      rw [hri, hfil2, List.take_append_drop]

/-- Fields of a successful epoch start. -/
theorem StartEpoch_fields (f : Nat → Nat → Nat) (rFuel : Nat) (br : BR0)
    (config : EpochConfiguration) (st : BRState)
    (h : StartEpoch f rFuel br config = some st) :
    st.workerRank = config.workerRank ∧
    st.numberOfWorkers = config.numberOfWorkers := by
  unfold StartEpoch at h
  dsimp only at h
  split at h
  · split at h
    · have hf := rfgsp_fields _ _ _ _ _ h
      exact ⟨hf.1, hf.2.1⟩
    · cases h
  · split at h
    · have hf := rfgsp_fields _ _ _ _ _ h
      exact ⟨hf.1, hf.2.1⟩
    · cases h

/-- C3: over one epoch, a sequence at a visited position is yielded by
`GetNextSequences` to worker `r` of `N` iff its randomized chunk id is
congruent to `r` modulo `N` (skipped sequences still charge the epoch
budget, which is why every worker walks the same reference trace `T`):
worker `r`'s full run equals the `belongsTo N r` filter of the single-worker
output, the per-worker outputs are pairwise disjoint, and their union is
exactly the single-worker output. -/
theorem GetNextSequences_worker_partition (f : Nat → Nat → Nat)
    (rFuel fuel count calls : Nat) (br : BR0) (index totalSize N : Nat)
    (T : List Item) (hN : 0 < N) (hcount : 0 < count)
    (hT : epochTrace f rFuel fuel br index totalSize = some T)
    (hcalls : T.length < calls) :
    workerRun f rFuel fuel count calls br index totalSize 0 1 = some T ∧
    (∀ r, r < N →
      workerRun f rFuel fuel count calls br index totalSize r N =
        some (T.filter (belongsTo N r))) ∧
    (∀ r r', r < N → r' < N → r ≠ r' → ∀ it, it ∈ T.filter (belongsTo N r) →
      it ∉ T.filter (belongsTo N r')) ∧
    (∀ it, it ∈ T ↔ ∃ r, r < N ∧ it ∈ T.filter (belongsTo N r)) := by
  unfold epochTrace at hT
  split at hT
  · cases hT
  next st0 hstart =>
    have hfields := StartEpoch_fields f rFuel br _ st0 hstart
    have hfull : T.filter (belongsTo 1 0) = T := by
      apply List.filter_eq_self.mpr
      intro it _
      simp [belongsTo, Nat.mod_one]
    have hsingle : workerRun f rFuel fuel count calls br index totalSize 0 1 =
        some T := by
      unfold workerRun
      rw [hstart]
      dsimp only
      have hrun := runEpoch_of_trace f rFuel 0 1 count hcount calls fuel st0 T
        hfields.1 hfields.2 hT (by rw [hfull]; exact hcalls)
      rw [hrun, hfull]
    refine ⟨hsingle, ?_, ?_, ?_⟩
    · intro r hrN
      unfold workerRun
      rw [StartEpoch_withWorker f rFuel br index totalSize r N, hstart]
      dsimp only [Option.map]
      exact runEpoch_of_trace f rFuel r N count hcount calls fuel
        (withWorker st0 r N) T rfl rfl
        (by rw [visitTrace_withWorker]; exact hT)
        (lt_of_le_of_lt (List.length_filter_le _ _) hcalls)
    · intro r r' h1 h2 hne it hmem hmem'
      have a1 := (List.mem_filter.mp hmem).2
      have a2 := (List.mem_filter.mp hmem').2
      exact hne ((of_decide_eq_true a1).symm.trans (of_decide_eq_true a2))
    · intro it
      constructor
      · intro hmem
        refine ⟨it.2.2.chunkId % N, Nat.mod_lt _ hN, ?_⟩
        exact List.mem_filter.mpr ⟨hmem, by simp [belongsTo]⟩
      · rintro ⟨r, _, hmem⟩
        exact (List.mem_filter.mp hmem).1

/-- C3 witness: on the two-chunk corpus `brC3` with two workers, the
single-worker output is the reference trace and the two workers' outputs are
its even/odd chunk-id filters. -/
theorem GetNextSequences_worker_partition_witness :
    workerRun fZero 9 9 1 3 brC3 0 2 0 1 = some trC3 ∧
    workerRun fZero 9 9 1 3 brC3 0 2 0 2 = some (trC3.filter (belongsTo 2 0)) ∧
    workerRun fZero 9 9 1 3 brC3 0 2 1 2 = some (trC3.filter (belongsTo 2 1)) := by
  have hT : epochTrace fZero 9 9 brC3 0 2 = some trC3 := by decide
  have h := GetNextSequences_worker_partition fZero 9 9 1 3 brC3 0 2 2 trC3
    (by decide) (by decide) hT (by decide)
  exact ⟨h.1, h.2.1 0 (by decide), h.2.1 1 (by decide)⟩

/-! ## FrameModePacker terminal minibatch (C7) -/

/-- Length of an in-bounds overwrite. -/
theorem writeRange_length (buf : List Nat) (off : Nat) (src : List Nat)
    (hfit : off + src.length ≤ buf.length) :
    (writeRange buf off src).length = buf.length := by
  simp [writeRange]
  omega

/-- Pointwise description of an in-bounds overwrite. -/
theorem writeRange_getD (buf : List Nat) (off : Nat) (src : List Nat) (p : Nat)
    (hfit : off + src.length ≤ buf.length) :
    (writeRange buf off src).getD p 0 =
      if off ≤ p ∧ p < off + src.length then src.getD (p - off) 0
      else buf.getD p 0 := by
  have hto : (buf.take off).length = off := by
    simp
    omega
  unfold writeRange
  rcases Nat.lt_or_ge p off with h1 | h1
  · rw [if_neg (by omega)]
    rw [List.getD_eq_getElem?_getD, List.getD_eq_getElem?_getD]
    rw [List.getElem?_append_left (by simp only [List.length_append]; omega)]
    rw [List.getElem?_append_left (by omega)]
    rw [List.getElem?_take_of_lt (by omega)]
  · rcases Nat.lt_or_ge p (off + src.length) with h2 | h2
    · rw [if_pos ⟨h1, h2⟩]
      rw [List.getD_eq_getElem?_getD, List.getD_eq_getElem?_getD]
      rw [List.getElem?_append_left (by simp only [List.length_append]; omega)]
      rw [List.getElem?_append_right (by omega)]
      rw [hto]
    · rw [if_neg (by omega)]
      rw [List.getD_eq_getElem?_getD, List.getD_eq_getElem?_getD]
      rw [List.getElem?_append_right (by simp only [List.length_append]; omega)]
      rw [List.getElem?_drop]
      have harith : off + src.length + (p - (buf.take off ++ src).length) = p := by
        simp only [List.length_append, hto]
        omega
      rw [harith]

/-- Packing one sample does not change the number of stream buffers. -/
theorem packSample_length (streams : List StreamDescriptionM) (i : Nat)
    (sample : List SequenceDataM) (bufs : List (List Nat)) :
    (packSample streams i sample bufs).length = bufs.length := by
  simp [packSample]

/-- Packing a batch does not change the number of stream buffers. -/
theorem packLoop_length (streams : List StreamDescriptionM) :
    ∀ (data : List (List SequenceDataM)) (i : Nat) (bufs : List (List Nat)),
      (packLoop streams i data bufs).length = bufs.length
  | [], _, _ => rfl
  | s :: rest, i, bufs => by
    rw [show packLoop streams i (s :: rest) bufs =
      packLoop streams (i + 1) rest (packSample streams i s bufs) from rfl]
    rw [packLoop_length streams rest (i + 1) (packSample streams i s bufs)]
    exact packSample_length streams i s bufs

/-- Stream `j`'s buffer after packing one sample. -/
theorem packSample_getD (streams : List StreamDescriptionM) (i : Nat)
    (sample : List SequenceDataM) (bufs : List (List Nat)) (j : Nat)
    (hj : j < bufs.length) :
    (packSample streams i sample bufs).getD j [] =
      packSampleStream (streams.getD j ⟨StorageType.dense, 0⟩) i
        (sample.getD j default) (bufs.getD j []) :=
  range_map_getD bufs.length j _ _ hj

/-- Content of a dense stream's buffer after the packing loop: positions
before the starting slot are untouched, and slot `i0 + k` holds the values of
the `k`-th packed sample. -/
theorem packLoop_dense (streams : List StreamDescriptionM) (j dim : Nat)
    (hdense : (streams.getD j ⟨StorageType.dense, 0⟩).storageType = StorageType.dense)
    (hdim : (streams.getD j ⟨StorageType.dense, 0⟩).sampleElements = dim) :
    ∀ (data : List (List SequenceDataM)) (i0 : Nat) (bufs : List (List Nat)),
      j < bufs.length →
      (i0 + data.length) * dim ≤ (bufs.getD j []).length →
      (∀ k, k < data.length → ((data.getD k []).getD j default).values.length = dim) →
      (∀ p, p < i0 * dim →
        ((packLoop streams i0 data bufs).getD j []).getD p 0 =
          (bufs.getD j []).getD p 0) ∧
      (∀ k, k < data.length → ∀ t, t < dim →
        ((packLoop streams i0 data bufs).getD j []).getD ((i0 + k) * dim + t) 0 =
          ((data.getD k []).getD j default).values.getD t 0)
  | [], i0, bufs, _, _, _ => ⟨fun _ _ => rfl, fun k hk => absurd hk (by simp)⟩
  | s :: rest, i0, bufs, hj, hfit, hvals => by
    have hv0 : (s.getD j default).values.length = dim := hvals 0 (by simp)
    have htake : ((s.getD j default).values.take dim).length = dim := by
      rw [List.length_take, hv0, Nat.min_self]
    have hb1 : (packSample streams i0 s bufs).getD j [] =
        writeRange (bufs.getD j []) (i0 * dim)
          ((s.getD j default).values.take dim) := by
      rw [packSample_getD streams i0 s bufs j hj]
      unfold packSampleStream
      rw [hdense, hdim]
    have hfit1 : i0 * dim + ((s.getD j default).values.take dim).length ≤
        (bufs.getD j []).length := by
      rw [htake]
      calc i0 * dim + dim = (i0 + 1) * dim := by ring
        _ ≤ (i0 + (s :: rest).length) * dim :=
          Nat.mul_le_mul_right _ (by simp)
        _ ≤ _ := hfit
    have hlen1 : ((packSample streams i0 s bufs).getD j []).length =
        (bufs.getD j []).length := by
      rw [hb1]
      exact writeRange_length _ _ _ hfit1
    have hjl : j < (packSample streams i0 s bufs).length := by
      rw [packSample_length]
      exact hj
    have hfitIH : (i0 + 1 + rest.length) * dim ≤
        ((packSample streams i0 s bufs).getD j []).length := by
      rw [hlen1]
      calc (i0 + 1 + rest.length) * dim = (i0 + (s :: rest).length) * dim := by
            rw [show i0 + 1 + rest.length = i0 + (s :: rest).length by simp; omega]
        _ ≤ _ := hfit
    have hvalsIH : ∀ k, k < rest.length →
        ((rest.getD k []).getD j default).values.length = dim := by
      intro k hk
      have := hvals (k + 1) (by simpa using Nat.succ_lt_succ hk)
      simpa using this
    have hIH := packLoop_dense streams j dim hdense hdim rest (i0 + 1)
      (packSample streams i0 s bufs) hjl hfitIH hvalsIH
    have hunfold : packLoop streams i0 (s :: rest) bufs =
        packLoop streams (i0 + 1) rest (packSample streams i0 s bufs) := rfl
    constructor
    · intro p hp
      rw [hunfold]
      rw [hIH.1 p (by
        have h1 : i0 * dim ≤ (i0 + 1) * dim := Nat.mul_le_mul_right _ (by omega)
        omega)]
      rw [hb1, writeRange_getD _ _ _ _ hfit1]
      rw [if_neg (by omega)]
    · intro k hk t ht
      cases k with
      | zero =>
        rw [hunfold]
        simp only [Nat.add_zero]
        rw [hIH.1 (i0 * dim + t) (by
          have h1 : (i0 + 1) * dim = i0 * dim + dim := by ring
          omega)]
        rw [hb1, writeRange_getD _ _ _ _ hfit1]
        rw [if_pos ⟨Nat.le_add_right _ _, by rw [htake]; omega⟩]
        rw [Nat.add_sub_cancel_left]
        simp only [List.getD_cons_zero]
        rw [List.getD_eq_getElem?_getD ((s.getD j default).values.take dim) t 0,
          List.getD_eq_getElem?_getD (s.getD j default).values t 0,
          List.getElem?_take_of_lt ht]
      | succ k2 =>
        rw [hunfold]
        rw [show i0 + (k2 + 1) = i0 + 1 + k2 by omega]
        have := hIH.2 k2 (by simpa using hk) t ht
        rw [this]
        simp

/-- C7: when the transformer chain reports `endOfEpoch` on a call that still
delivered `n > 0` samples, `FrameModePacker::ReadMinibatch` returns a
minibatch carrying those `n` samples packed into the stream buffers — each
dense stream's slot `k` holds sample `k`'s values, and `dataSize` counts
exactly `n` samples — with `atEndOfEpoch = true`; the shim then answers that
call (nonempty payload, flag becomes set), and the NEXT
`ReaderShim::GetMinibatch` call returns false and writes no payload. -/
theorem readMinibatch_terminal (inputStreams outputStreams : List StreamDescriptionM)
    (bufs : List (List Nat)) (images : SequencesM) (n : Nat)
    (hn : images.data.length = n) (hpos : 0 < n) (heoe : images.endOfEpoch = true) :
    (ReadMinibatch inputStreams outputStreams bufs images).1.atEndOfEpoch = true ∧
    (ReadMinibatch inputStreams outputStreams bufs images).1.streamData =
      packLoop inputStreams 0 images.data bufs ∧
    (ReadMinibatch inputStreams outputStreams bufs images).1.dataSizes =
      outputStreams.map (fun s => n * s.sampleElements) ∧
    (∀ j dim, j < bufs.length →
      (inputStreams.getD j ⟨StorageType.dense, 0⟩).storageType = StorageType.dense →
      (inputStreams.getD j ⟨StorageType.dense, 0⟩).sampleElements = dim →
      n * dim ≤ (bufs.getD j []).length →
      (∀ k, k < n → ((images.data.getD k []).getD j default).values.length = dim) →
      ∀ k, k < n → ∀ t, t < dim →
        ((ReadMinibatch inputStreams outputStreams bufs images).1.streamData.getD
          j []).getD (k * dim + t) 0 =
          ((images.data.getD k []).getD j default).values.getD t 0) ∧
    (bufs ≠ [] →
      (shimGetMinibatch false
        (ReadMinibatch inputStreams outputStreams bufs images).1).1 = true) ∧
    (shimGetMinibatch false
      (ReadMinibatch inputStreams outputStreams bufs images).1).2.1 = true ∧
    (∀ m : MinibatchM, shimGetMinibatch true m = (false, true, [])) := by
  have hne : ¬(images.data.length = 0) := by omega
  have hmb : ReadMinibatch inputStreams outputStreams bufs images =
      ({ atEndOfEpoch := images.endOfEpoch,
         streamData := packLoop inputStreams 0 images.data bufs,
         dataSizes := outputStreams.map fun s =>
          images.data.length * s.sampleElements },
        packLoop inputStreams 0 images.data bufs) := by
    unfold ReadMinibatch
    rw [if_neg hne]
  refine ⟨by rw [hmb]; exact heoe, by rw [hmb], by rw [hmb, hn], ?_, ?_, ?_, ?_⟩
  · intro j dim hj hdense hdim hfit hvals k hk t ht
    rw [hmb]
    have hchar := packLoop_dense inputStreams j dim hdense hdim images.data 0 bufs
      hj (by rw [Nat.zero_add, hn]; exact hfit) (by rw [hn]; exact hvals)
    have := hchar.2 k (by omega) t ht
    rw [Nat.zero_add] at this
    exact this
  · intro hbne
    rw [hmb]
    unfold shimGetMinibatch
    rw [if_neg (by simp)]
    dsimp only
    rw [if_neg (by
      simp only [List.isEmpty_iff]
      intro hempty
      have := packLoop_length inputStreams images.data 0 bufs
      rw [hempty] at this
      exact hbne (List.length_eq_zero.mp this.symm))]
  · rw [hmb]
    unfold shimGetMinibatch
    rw [if_neg (by simp)]
    dsimp only
    rw [heoe]
    by_cases hempty : (packLoop inputStreams 0 images.data bufs).isEmpty
    · rw [if_pos hempty]
      rfl
    · rw [if_neg hempty]
      rfl
  · intro m
    rfl

/-- C7 witness: one dense stream of two elements, a single delivered sample
with `endOfEpoch` set — the packed slot holds the sample, the flag is set,
the shim answers true, and the next call returns false with no writes. -/
theorem readMinibatch_terminal_witness :
    (ReadMinibatch [⟨StorageType.dense, 2⟩] [⟨StorageType.dense, 2⟩]
      [[9, 9, 9, 9]] ⟨[[⟨[5, 6], 1, []⟩]], true⟩).1.atEndOfEpoch = true ∧
    ((ReadMinibatch [⟨StorageType.dense, 2⟩] [⟨StorageType.dense, 2⟩]
      [[9, 9, 9, 9]] ⟨[[⟨[5, 6], 1, []⟩]], true⟩).1.streamData.getD 0 []).getD
      (0 * 2 + 0) 0 = 5 ∧
    (shimGetMinibatch true ⟨false, [], []⟩) = (false, true, []) := by
  have h := readMinibatch_terminal [⟨StorageType.dense, 2⟩] [⟨StorageType.dense, 2⟩]
    [[9, 9, 9, 9]] ⟨[[⟨[5, 6], 1, []⟩]], true⟩ 1 rfl (by decide) rfl
  refine ⟨h.1, ?_, h.2.2.2.2.2.2 ⟨false, [], []⟩⟩
  have hc := h.2.2.2.1 0 2 (by decide) rfl rfl (by decide) (by
    intro k hk
    interval_cases k
    rfl) 0 (by decide) 0 (by decide)
  simpa using hc

end CNTK
